import Mathlib

/-!
Verification of the puzzle-printing pipeline (`print.py`).

The program reads newline-separated puzzle descriptors from its input,
decodes each with a family-specific decoder, renders each decoded grid
into a fragment of drawing commands plus a bounding box, and composes
the fragments into pages with uniform gutters, wrapped in a document
preamble and trailer.

The definitions below are a shallow embedding of that script:
strings are `List Char`, Python integers are `Int`, geometric
quantities are `ℚ`, the emitted drawing commands are the inductive
types `Prim` (per-fragment commands) and `OutItem` (document-level
output), and every fallible operation returns an `Option` (a `none`
models the fatal error that aborts the whole run).
-/

/-- Membership test for Python's `string.digits`. -/
def isDigitC (c : Char) : Bool := decide ('0' ≤ c) && decide (c ≤ '9')

/-- Membership test for Python's `string.lowercase` (ASCII). -/
def isLowerC (c : Char) : Bool := decide ('a' ≤ c) && decide (c ≤ 'z')

/-- Membership test for the whitespace characters Python's `string.atoi`
strips before converting. -/
def isPySpaceC (c : Char) : Bool :=
  c = ' ' ∨ c = '\t' ∨ c = '\n' ∨ c = '\x0d' ∨ c = '\x0b' ∨ c = '\x0c'

/-- Value of a string of decimal digits, most significant first
(the numeric core of Python's `string.atoi`). -/
def digitsVal (l : List Char) : Int :=
  l.foldl (fun a c => a * 10 + ((c.toNat : Int) - ('0'.toNat : Int))) 0

/-- Model of Python's `string.atoi`: strip surrounding whitespace, allow one
optional sign, then require a nonempty run of decimal digits; anything else
raises `ValueError`, modelled as `none`. -/
def pyAtoi (s : List Char) : Option Int :=
  match ((s.dropWhile isPySpaceC).reverse.dropWhile isPySpaceC).reverse with
  | [] => none
  | c :: rest =>
    if c = '-' then
      if rest ≠ [] ∧ rest.all isDigitC then some (-(digitsVal rest)) else none
    else if c = '+' then
      if rest ≠ [] ∧ rest.all isDigitC then some (digitsVal rest) else none
    else if (c :: rest).all isDigitC then some (digitsVal (c :: rest)) else none

/-- Model of Python's `string.split(s, sep)` for a one-character separator:
splits at every occurrence, keeping empty parts, and yields one part for a
string with no separator. -/
def splitOnChar (sep : Char) : List Char → List (List Char)
  | [] => [[]]
  | c :: rest =>
    if c = sep then [] :: splitOnChar sep rest
    else
      match splitOnChar sep rest with
      | [] => [[c]]
      | g :: gs => (c :: g) :: gs

/-- Model of `w, h = map(string.atoi, string.split(params, "x"))` as used by
`rect_format`, `solo_format`, `slant_format` and others: the parameter string
must split on `x` into exactly two parts, each accepted by `string.atoi`;
a different number of parts (unpack error) or a failed conversion
(`ValueError`) aborts the run. -/
def pairAtoi (params : List Char) : Option (Int × Int) :=
  match (splitOnChar 'x' params).map pyAtoi with
  | [some w, some h] => some (w, h)
  | _ => none

/-- The shared seed loop of `rect_format` (print.py:51-61) and `solo_format`
(print.py:281-291), which are textually identical: a lowercase letter `c`
appends `ord(c)-ord('a')+1` cells holding `-1` and is consumed; an underscore
is consumed without appending anything; a run of digits is consumed greedily
and appends its numeric value as one cell.  On any other character the
source's `while` loop makes no progress and never terminates; this embedding
returns `none` for such stuck seeds (see `slantLoopStep` for the loop-level
model of that non-termination). -/
def runLengthSeedGrid : List Char → Option (List Int)
  | [] => some []
  | c :: rest =>
    if c = '_' ∨ isLowerC c = true then
      if isLowerC c = true then
        (runLengthSeedGrid rest).map
          (fun g => List.replicate (c.toNat - 'a'.toNat + 1) (-1) ++ g)
      else runLengthSeedGrid rest
    else if isDigitC c then
      (runLengthSeedGrid (rest.dropWhile isDigitC)).map
        (fun g => digitsVal (c :: rest.takeWhile isDigitC) :: g)
    else none
termination_by l => l.length
decreasing_by
  all_goals simp_wf
  all_goals first
    | omega
    | (have hdw := (List.dropWhile_sublist (l := rest) isDigitC).length_le
       omega)

/-- The seed loop of `slant_format` (print.py:377-383): lowercase letters are
run-length skips appending `-1` cells, the characters `0`..`4` append their
digit value.  Any other character leaves the loop state unchanged, so the
source loops forever; modelled as `none` (see `slantLoopStep`). -/
def slantSeedGrid : List Char → Option (List Int)
  | [] => some []
  | c :: rest =>
    if isLowerC c = true then
      (slantSeedGrid rest).map
        (fun g => List.replicate (c.toNat - 'a'.toNat + 1) (-1) ++ g)
    else if c = '0' ∨ c = '1' ∨ c = '2' ∨ c = '3' ∨ c = '4' then
      (slantSeedGrid rest).map (fun g => ((c.toNat : Int) - ('0'.toNat : Int)) :: g)
    else none

/-- One iteration of the body of the `while len(seed) > 0` loop of
`slant_format` (print.py:377-383), as a function on the loop state
`(seed, grid)`.  The source has no `else` branch: a character that is neither
lowercase nor one of `0`..`4` leaves the state unchanged while the loop guard
stays true, so the loop never terminates. -/
def slantLoopStep : List Char × List Int → List Char × List Int
  | ([], g) => ([], g)
  | (c :: rest, g) =>
    if isLowerC c = true then
      (rest, g ++ List.replicate (c.toNat - 'a'.toNat + 1) (-1))
    else if c = '0' ∨ c = '1' ∨ c = '2' ∨ c = '3' ∨ c = '4' then
      (rest, g ++ [((c.toNat : Int) - ('0'.toNat : Int))])
    else (c :: rest, g)

/-- The seed loop of `dominosa_format` (print.py:344-351): `[digits]` appends
a bracketed multi-digit tag (via `string.split(seed[1:], "]")`, which fails
unless exactly one `]` remains), a single digit appends its own value, and
anything else fails the `assert`. -/
def dominosaSeedGrid : List Char → Option (List Int)
  | [] => some []
  | c :: rest =>
    if c = '[' then
      match h : rest.dropWhile (fun a => !(a = ']')) with
      | [] => none
      | _ :: tail =>
        if ']' ∈ tail then none
        else
          (pyAtoi (rest.takeWhile (fun a => !(a = ']')))).bind fun v =>
            (dominosaSeedGrid tail).map fun g => v :: g
    else if isDigitC c then
      (dominosaSeedGrid rest).map fun g => digitsVal [c] :: g
    else none
termination_by l => l.length
decreasing_by
  all_goals simp_wf
  all_goals first
    | omega
    | (have h2 := (List.dropWhile_sublist (l := rest) (fun a => !(a = ']'))).length_le
       rw [h] at h2
       simp at h2
       omega)

/-- Decoder portion of `rect_format` (print.py:44-62): split the game ID on
`:` into parameters and seed (exactly two parts), parse `w x h`, run the
shared seed loop, and require exactly `w*h` cells (the `assert`). -/
def rectDecode (s : List Char) : Option (Int × Int × List Int) :=
  match splitOnChar ':' s with
  | [params, seed] =>
    (pairAtoi params).bind fun wh =>
      (runLengthSeedGrid seed).bind fun grid =>
        if wh.1 * wh.2 = (grid.length : Int) then some (wh.1, wh.2, grid) else none
  | _ => none

/-- Decoder portion of `solo_format` (print.py:273-292): parameters are the
block shape `c x r`, the grid is `(c*r) x (c*r)`, and the `assert` requires
exactly `(c*r)*(c*r)` cells. -/
def soloDecode (s : List Char) : Option (Int × Int × List Int) :=
  match splitOnChar ':' s with
  | [params, seed] =>
    (pairAtoi params).bind fun cr =>
      (runLengthSeedGrid seed).bind fun grid =>
        if (cr.1 * cr.2) * (cr.1 * cr.2) = (grid.length : Int) then
          some (cr.1, cr.2, grid)
        else none
  | _ => none

/-- Decoder portion of `slant_format` (print.py:368-384): parameters are
`w x h`, the vertex grid is `(w+1) x (h+1)`, and the `assert` requires
exactly `(w+1)*(h+1)` cells. -/
def slantDecode (s : List Char) : Option (Int × Int × List Int) :=
  match splitOnChar ':' s with
  | [params, seed] =>
    (pairAtoi params).bind fun wh =>
      (slantSeedGrid seed).bind fun grid =>
        if (wh.1 + 1) * (wh.2 + 1) = (grid.length : Int) then
          some (wh.1, wh.2, grid)
        else none
  | _ => none

/-- Decoder portion of `dominosa_format` (print.py:336-352): the parameter
section is a single integer `n` (no `x`), the grid is `(n+2) x (n+1)`, and
the `assert` requires exactly `(n+2)*(n+1)` cells. -/
def dominosaDecode (s : List Char) : Option (Int × List Int) :=
  match splitOnChar ':' s with
  | [params, seed] =>
    (pyAtoi params).bind fun n =>
      (dominosaSeedGrid seed).bind fun grid =>
        if (n + 2) * (n + 1) = (grid.length : Int) then some (n, grid) else none
  | _ => none

/-- Value of one hex digit as accepted by `string.atoi(seed[0], 16)` at
print.py:109 on a single-character string: `0`-`9`, `a`-`f`, `A`-`F`;
anything else raises `ValueError`, modelled as `none`. -/
def hexVal (c : Char) : Option Int :=
  if isDigitC c = true then some ((c.toNat : Int) - ('0'.toNat : Int))
  else if decide ('a' ≤ c) && decide (c ≤ 'f') then
    some ((c.toNat : Int) - ('a'.toNat : Int) + 10)
  else if decide ('A' ≤ c) && decide (c ≤ 'F') then
    some ((c.toNat : Int) - ('A'.toNat : Int) + 10)
  else none

/-- The wrapping flag of `net_format` (print.py:100-102): a trailing `w` on
the parameter section marks a wrapping grid. -/
def netWrapFlag (params : List Char) : Bool := params.getLast? = some 'w'

/-- The parameter section of `net_format` after stripping the optional
trailing `w` (print.py:101-103). -/
def netParams (params : List Char) : List Char :=
  if params.getLast? = some 'w' then params.dropLast else params

/-- The nibble-and-barrier seed loop of `net_format` (print.py:108-119),
with the grid and barrier lists carried as accumulators exactly as the
imperative loop does: each step reads one hex nibble (`ValueError` on any
other character, modelled as `none`), consumes any following `h`/`v`
trailer characters, each recording a barrier at the current cell
`(len(grid) % w, len(grid) / w)` (Python floor division; `Int.emod` and
`Int.ediv` agree with it on the positive widths of any decodable grid),
and finally appends the nibble. -/
def netSeedLoop (w : Int) : List Char → List Int → List (Int × Int) →
    List (Int × Int) →
    Option (List Int × List (Int × Int) × List (Int × Int))
  | [], grid, hb, vb => some (grid, hb, vb)
  | c :: rest, grid, hb, vb =>
    (hexVal c).bind fun n =>
      let bars := rest.takeWhile (fun a => decide (a = 'h') || decide (a = 'v'))
      let x := Int.emod (grid.length : Int) w
      let y := Int.ediv (grid.length : Int) w
      netSeedLoop w (rest.dropWhile (fun a => decide (a = 'h') || decide (a = 'v')))
        (grid ++ [n])
        (hb ++ (bars.filter (fun a => decide (a = 'h'))).map (fun _ => (x, y + 1)))
        (vb ++ (bars.filter (fun a => decide (a = 'v'))).map (fun _ => (x + 1, y)))
termination_by l g hb vb => l.length
decreasing_by
  simp_wf
  have hdw := (List.dropWhile_sublist (l := rest)
    (fun a => decide (a = 'h') || decide (a = 'v'))).length_le
  omega

/-- Decoder portion of `net_format` (print.py:95-120): split on `:`, strip
an optional trailing `w` (wrapping flag), parse `w x h`, run the
nibble-and-barrier seed loop, and require exactly `w*h` grid cells (the
`assert`).  Returns `(w, h, wrapping, grid, hbarriers, vbarriers)`. -/
def netDecode (s : List Char) :
    Option (Int × Int × Bool × List Int × List (Int × Int) × List (Int × Int)) :=
  match splitOnChar ':' s with
  | [params, seed] =>
    (pairAtoi (netParams params)).bind fun wh =>
      (netSeedLoop wh.1 seed [] [] []).bind fun r =>
        if wh.1 * wh.2 = ((r.1).length : Int) then
          some (wh.1, wh.2, netWrapFlag params, r.1, r.2.1, r.2.2)
        else none
  | _ => none

/-- Decoder portion of `pattern_format` (print.py:210-217): parse `w x h`,
split the seed on `/` into clue groups and each group on `.` into clue
numbers, and require exactly `w+h` groups (the `assert`).  This family
builds row/column clue lists rather than a dense cell array. -/
def patternDecode (s : List Char) :
    Option (Int × Int × List (List (List Char))) :=
  match splitOnChar ':' s with
  | [params, seed] =>
    (pairAtoi params).bind fun wh =>
      if wh.1 + wh.2
          = (((splitOnChar '/' seed).map (splitOnChar '.')).length : Int) then
        some (wh.1, wh.2, (splitOnChar '/' seed).map (splitOnChar '.'))
      else none
  | _ => none

/-- The seed loop of `lightup_format` (print.py:428-437): lowercase letters
are run-length skips appending `-2` cells, `B` appends a black square
(`-1`), and `0`..`4` append their digit value.  Any other character leaves
the else-less loop's state unchanged, so the source loops forever;
modelled as `none` (compare `slantLoopStep`). -/
def lightupSeedGrid : List Char → Option (List Int)
  | [] => some []
  | c :: rest =>
    if isLowerC c = true then
      (lightupSeedGrid rest).map
        (fun g => List.replicate (c.toNat - 'a'.toNat + 1) (-2) ++ g)
    else if c = 'B' then (lightupSeedGrid rest).map (fun g => (-1) :: g)
    else if c = '0' ∨ c = '1' ∨ c = '2' ∨ c = '3' ∨ c = '4' then
      (lightupSeedGrid rest).map
        (fun g => ((c.toNat : Int) - ('0'.toNat : Int)) :: g)
    else none

/-- Decoder portion of `lightup_format` (print.py:421-438): parameters are
`w x h` and the `assert` requires exactly `w*h` cells. -/
def lightupDecode (s : List Char) : Option (Int × Int × List Int) :=
  match splitOnChar ':' s with
  | [params, seed] =>
    (pairAtoi params).bind fun wh =>
      (lightupSeedGrid seed).bind fun grid =>
        if wh.1 * wh.2 = (grid.length : Int) then some (wh.1, wh.2, grid)
        else none
  | _ => none

/-- The orientation-bitmask canonicalization of `net_format`
(print.py:160-168): rotations of one arm collapse to 1, of a straight to 5,
of a bend to 9, of a tee to 13; all other values (0 and 15) pass through. -/
def netCanon (v : Int) : Int :=
  if v = 1 ∨ v = 2 ∨ v = 4 ∨ v = 8 then 1
  else if v = 5 ∨ v = 10 then 5
  else if v = 3 ∨ v = 6 ∨ v = 9 ∨ v = 12 then 9
  else if v = 7 ∨ v = 11 ∨ v = 13 ∨ v = 14 then 13
  else v

/-- One PostScript drawing command emitted by a formatter via `psprint`.
Each constructor records the command template and its numeric arguments;
`vline x h` stands for the template `x 0 moveto 0 h rlineto` and `hline y w`
for `0 y moveto w 0 rlineto`; `borderRect h w` is the exterior-rectangle path
`0 0 moveto 0 h rlineto w 0 rlineto 0 -h rlineto`. -/
inductive Prim where
  | translate (x y : ℚ)
  | newpathSetlinewidth (w : ℚ)
  | vline (x h : ℚ)
  | hline (y w : ℚ)
  | stroke
  | borderRect (h w : ℚ)
  | closepathStroke
  | setfont (fontName : String) (size : ℚ)
  | ctshow (x y : ℚ) (label : String)
  | arcFilledCircle (x y r : ℚ)
  deriving DecidableEq

/-- Bounding margins of a fragment around its origin, in the order the
Python code stores them: `(left, right, top, bottom)`. -/
abbrev Coords := ℚ × ℚ × ℚ × ℚ

/-- The `ret.coords` of `rect_format` (print.py:68-70): half the 14pt-pitch
grid size on each side (`pw/2` and `ph/2` with Python integer division,
always exact because the pitch is even). -/
def rectCoords (w h : Int) : Coords :=
  ((((14 * w) / 2 : Int) : ℚ), (((14 * w) / 2 : Int) : ℚ),
   (((14 * h) / 2 : Int) : ℚ), (((14 * h) / 2 : Int) : ℚ))

/-- Thin internal grid lines of `rect_format` (print.py:75-78):
`xrange(1, w)` vertical lines, then `xrange(1, h)` horizontal lines. -/
def rectThin (w h : Int) : List Prim :=
  ((List.range' 1 (w.toNat - 1)).map fun x =>
    Prim.vline ((x : ℚ) * 14) ((h : ℚ) * 14))
  ++ ((List.range' 1 (h.toNat - 1)).map fun y =>
    Prim.hline ((y : ℚ) * 14) ((w : ℚ) * 14))

/-- Clue numbers of `rect_format` (print.py:87-92): one centered-text call
per cell whose value is positive. -/
def rectNumbers (w h : Int) (grid : List Int) : List Prim :=
  (List.range h.toNat).flatMap fun y =>
    (List.range w.toNat).filterMap fun x =>
      if 0 < grid.getD (y * w.toNat + x) 0 then
        some (Prim.ctshow (((x : ℚ) + 1/2) * 14) (((h : ℚ) - y - 1/2) * 14)
          (toString (grid.getD (y * w.toNat + x) 0)))
      else none

/-- Renderer portion of `rect_format` (print.py:63-93), in source order:
translate, very thin internal lines (0.01), stroke, thick exterior border
(1.5), font setup, then the clue numbers. -/
def rectFragment (w h : Int) (grid : List Int) : List Prim :=
  [Prim.translate (-(((14 * w) / 2 : Int) : ℚ)) (-(((14 * h) / 2 : Int) : ℚ)),
   Prim.newpathSetlinewidth (1/100)]
  ++ rectThin w h
  ++ [Prim.stroke, Prim.newpathSetlinewidth (3/2),
      Prim.borderRect ((h : ℚ) * 14) ((w : ℚ) * 14), Prim.closepathStroke,
      Prim.setfont "Helvetica" 7]
  ++ rectNumbers w h grid

/-- `rect_format` as a whole: decoded grid to `(coords, fragment)`. -/
def rectFormatter (s : List Char) : Option (Coords × List Prim) :=
  (rectDecode s).map fun g => (rectCoords g.1 g.2.1, rectFragment g.1 g.2.1 g.2.2)

/-- The `ret.coords` of `solo_format` (print.py:298-299): the square grid has
side `16*(c*r)` and the origin sits at its centre. -/
def soloCoords (c r : Int) : Coords :=
  ((((16 * (c * r)) / 2 : Int) : ℚ), (((16 * (c * r)) / 2 : Int) : ℚ),
   (((16 * (c * r)) / 2 : Int) : ℚ), (((16 * (c * r)) / 2 : Int) : ℚ))

/-- Thin vertical lines of `solo_format` (print.py:303-305): `xrange(1, cr)`
skipping multiples of `r`.  The `x % r` test only matters through its
zeroness, on which Python's and Lean's conventions agree. -/
def soloThinV (c r : Int) : List Prim :=
  (List.range' 1 ((c * r).toNat - 1)).filterMap fun x =>
    if (x : Int) % r ≠ 0 then
      some (Prim.vline ((x : ℚ) * 16) (((c * r : Int) : ℚ) * 16))
    else none

/-- Thin horizontal lines of `solo_format` (print.py:306-308). -/
def soloThinH (c r : Int) : List Prim :=
  (List.range' 1 ((c * r).toNat - 1)).filterMap fun y =>
    if (y : Int) % c ≠ 0 then
      some (Prim.hline ((y : ℚ) * 16) (((c * r : Int) : ℚ) * 16))
    else none

/-- Thick vertical block-boundary lines of `solo_format` (print.py:312-313):
`xrange(r, cr, r)`, i.e. the positive multiples of `r` below `c*r`.  A
non-positive step is modelled as the empty range; Python agrees whenever
`c*r` is non-negative (for other parameters Python would raise or count
downward, a corner the layout theorems exclude by requiring positive
`c` and `r`). -/
def soloThickV (c r : Int) : List Prim :=
  if r ≤ 0 then []
  else
    (List.range' 1 (((c * r).toNat - 1) / r.toNat)).map fun i =>
      Prim.vline (((i * r.toNat : ℕ) : ℚ) * 16) (((c * r : Int) : ℚ) * 16)

/-- Thick horizontal block-boundary lines of `solo_format` (print.py:314-315). -/
def soloThickH (c r : Int) : List Prim :=
  if c ≤ 0 then []
  else
    (List.range' 1 (((c * r).toNat - 1) / c.toNat)).map fun i =>
      Prim.hline (((i * c.toNat : ℕ) : ℚ) * 16) (((c * r : Int) : ℚ) * 16)

/-- Digit-to-glyph mapping of `solo_format` (print.py:328-331): values above
9 become lowercase letters starting at `a`. -/
def soloLabel (n : Int) : String :=
  if 9 < n then String.mk [Char.ofNat ('a'.toNat + (n.toNat - 10))]
  else String.mk [Char.ofNat ('0'.toNat + n.toNat)]

/-- Clue glyphs of `solo_format` (print.py:324-333). -/
def soloNumbers (c r : Int) (grid : List Int) : List Prim :=
  (List.range (c * r).toNat).flatMap fun y =>
    (List.range (c * r).toNat).filterMap fun x =>
      if 0 < grid.getD (y * (c * r).toNat + x) 0 then
        some (Prim.ctshow (((x : ℚ) + 1/2) * 16)
          ((((c * r : Int) : ℚ) - y - 1/2) * 16)
          (soloLabel (grid.getD (y * (c * r).toNat + x) 0)))
      else none

/-- Everything `solo_format` emits before the clue glyphs (print.py:297-323),
in source order: translate, thin internal lines (0.1), stroke, thicker block
lines (1), stroke, exterior border thicker still (1.5), font setup. -/
def soloPre (c r : Int) : List Prim :=
  [Prim.translate (-(((16 * (c * r)) / 2 : Int) : ℚ))
     (-(((16 * (c * r)) / 2 : Int) : ℚ)),
   Prim.newpathSetlinewidth (1/10)]
  ++ soloThinV c r ++ soloThinH c r
  ++ [Prim.stroke, Prim.newpathSetlinewidth 1]
  ++ soloThickV c r ++ soloThickH c r
  ++ [Prim.stroke, Prim.newpathSetlinewidth (3/2),
      Prim.borderRect (((c * r : Int) : ℚ) * 16) (((c * r : Int) : ℚ) * 16),
      Prim.closepathStroke,
      Prim.setfont "Helvetica" 9]

/-- Renderer portion of `solo_format` (print.py:293-334): the grid-and-border
prefix followed by the clue glyphs. -/
def soloFragment (c r : Int) (grid : List Int) : List Prim :=
  soloPre c r ++ soloNumbers c r grid

/-- The `ret.coords` of `slant_format` (print.py:391-393). -/
def slantCoords (w h : Int) : Coords :=
  ((((14 * w) / 2 : Int) : ℚ), (((14 * w) / 2 : Int) : ℚ),
   (((14 * h) / 2 : Int) : ℚ), (((14 * h) / 2 : Int) : ℚ))

/-- Thin internal grid lines of `slant_format` (print.py:402-407). -/
def slantThin (w h : Int) : List Prim :=
  ((List.range' 1 (w.toNat - 1)).map fun x =>
    Prim.vline ((x : ℚ) * 14) ((h : ℚ) * 14))
  ++ ((List.range' 1 (h.toNat - 1)).map fun y =>
    Prim.hline ((y : ℚ) * 14) ((w : ℚ) * 14))

/-- Vertex clues of `slant_format` (print.py:410-418): a filled white circle
of radius `7*2/3` and the digit, for every vertex with a clue. -/
def slantNumbers (w h : Int) (grid : List Int) : List Prim :=
  (List.range (h + 1).toNat).flatMap fun y =>
    (List.range (w + 1).toNat).flatMap fun x =>
      if 0 ≤ grid.getD (y * (w + 1).toNat + x) (-1) then
        [Prim.arcFilledCircle ((x : ℚ) * 14) (((h : ℚ) - y) * 14) (14/3),
         Prim.ctshow ((x : ℚ) * 14) (((h : ℚ) - y) * 14)
           (toString (grid.getD (y * (w + 1).toNat + x) (-1)))]
      else []

/-- Renderer portion of `slant_format` (print.py:385-419), in source order:
translate, exterior border FIRST at width 1 (print.py:395-399), then the
very thin internal lines at width 0.01 (print.py:400-407), then the vertex
clues. -/
def slantFragment (w h : Int) (grid : List Int) : List Prim :=
  [Prim.translate (-(((14 * w) / 2 : Int) : ℚ)) (-(((14 * h) / 2 : Int) : ℚ)),
   Prim.newpathSetlinewidth 1,
   Prim.borderRect ((h : ℚ) * 14) ((w : ℚ) * 14), Prim.closepathStroke,
   Prim.newpathSetlinewidth (1/100)]
  ++ slantThin w h
  ++ [Prim.stroke, Prim.setfont "Helvetica" 7]
  ++ slantNumbers w h grid

/-- The sequence of `setlinewidth` values a fragment sets, in emission
order. -/
def widthMarks (l : List Prim) : List ℚ :=
  l.filterMap fun p =>
    match p with
    | Prim.newpathSetlinewidth w => some w
    | _ => none

/-- Whether a command is a line-width change. -/
def isSetWidthP : Prim → Bool
  | Prim.newpathSetlinewidth _ => true
  | _ => false

/-- Whether a command is a per-cell decoration (clue text or clue circle). -/
def isDecorP : Prim → Bool
  | Prim.ctshow _ _ _ => true
  | Prim.arcFilledCircle _ _ _ => true
  | _ => false

/-- The tiered emission order the specification describes: the successive
line widths a fragment sets strictly increase (thin internal lines, then
thicker interval lines, then a bolder exterior border), and every per-cell
decoration comes after every width change. -/
def tieredOk (l : List Prim) : Prop :=
  List.Sorted (· < ·) (widthMarks l) ∧
  ∀ i j : Fin l.length,
    isSetWidthP (l.get i) = true → isDecorP (l.get j) = true → (i : ℕ) < (j : ℕ)

/-- Total extent of a list of `(near, far)` envelope pairs: the `htotal` and
`wtotal` accumulations of the page emission loop (print.py:577, 588). -/
def extSum (env : List (ℚ × ℚ)) : ℚ := (env.map fun p => p.1 + p.2).sum

/-- The `hbelow` value for row `y` (print.py:581-582): total extent of the
row envelopes below row `y`, plus row `y`'s own bottom extent. -/
def hbelowOf (tb : List (ℚ × ℚ)) (y : ℕ) : ℚ :=
  extSum (tb.drop (y + 1)) + (tb.getD y (0, 0)).2

/-- The `wleft` value for column `x` (print.py:592-593): total extent of the
column envelopes left of column `x`, plus column `x`'s own left extent. -/
def wleftOf (lr : List (ℚ × ℚ)) (x : ℕ) : ℚ :=
  extSum (lr.take x) + (lr.getD x (0, 0)).1

/-- Vertical translate offset the emitted PostScript computes for a puzzle in
row `y` (print.py:583): `(P - htotal) * (yy-y) / (yy+1) + hbelow`, where `P`
is the clip-rectangle height taken from `clippath pathbbox` at print time. -/
def vOffset (P : ℚ) (tb : List (ℚ × ℚ)) (yy y : ℕ) : ℚ :=
  (P - extSum tb) * ((yy : ℚ) - (y : ℚ)) / ((yy : ℚ) + 1) + hbelowOf tb y

/-- Horizontal translate offset for a puzzle in column `x` (print.py:594):
`(Q - wtotal) * (x+1) / (xx+1) + wleft` with `Q` the clip width. -/
def hOffset (Q : ℚ) (lr : List (ℚ × ℚ)) (xx x : ℕ) : ℚ :=
  (Q - extSum lr) * ((x : ℚ) + 1) / ((xx : ℚ) + 1) + wleftOf lr x

/-- The per-axis gutter the layout produces: the leftover page extent after
all envelopes, divided evenly into `n+1` gaps, where `n` is the configured
number of page cells along that axis. -/
def gutterOf (P : ℚ) (env : List (ℚ × ℚ)) (n : ℕ) : ℚ :=
  (P - extSum env) / ((n : ℚ) + 1)

/-- The formatter result for page `p`, cell `(y, x)`.  The fill loop
(print.py:553-563) assigns consecutive descriptors to cells in row-major
order page by page, so the cell holds the result with linear index
`p*(xx*yy) + y*xx + x`, and cells past the end of the input are left
empty. -/
def cellResult (results : List (Coords × List Prim)) (xx yy p y x : ℕ) :
    Option (Coords × List Prim) :=
  results[p * (xx * yy) + y * xx + x]?

/-- Per-row `(top, bottom)` envelopes of one page (print.py:551, 561-562):
componentwise max over the occupied cells of each row, starting from
`(0, 0)`. -/
def tbboundOf (results : List (Coords × List Prim)) (xx yy p : ℕ) :
    List (ℚ × ℚ) :=
  (List.range yy).map fun y =>
    (List.range xx).foldl
      (fun acc x =>
        match cellResult results xx yy p y x with
        | some (cds, _) => (max acc.1 cds.2.2.1, max acc.2 cds.2.2.2)
        | none => acc)
      (0, 0)

/-- Per-column `(left, right)` envelopes of one page (print.py:550,
559-560). -/
def lrboundOf (results : List (Coords × List Prim)) (xx yy p : ℕ) :
    List (ℚ × ℚ) :=
  (List.range xx).map fun x =>
    (List.range yy).foldl
      (fun acc y =>
        match cellResult results xx yy p y x with
        | some (cds, _) => (max acc.1 cds.1, max acc.2 cds.2.1)
        | none => acc)
      (0, 0)

/-- One line of document-level output.  `raw` lines are emitted verbatim;
`pagesDecl n` is the `%%Pages: n` header; `pageMark n` is `%%Page: n n`;
`vcmd htotal m d hbelow` is the arithmetic line `htotal sub m mul d div
hbelow add exch` (print.py:583) and `hcmd` its horizontal counterpart
(print.py:594); `prim` wraps one fragment drawing command. -/
inductive OutItem where
  | raw (s : String)
  | pagesDecl (n : ℕ)
  | pageMark (n : ℕ)
  | vcmd (htotal : ℚ) (mulc divc : ℕ) (hbelow : ℚ)
  | hcmd (wtotal : ℚ) (mulc divc : ℕ) (wleft : ℚ)
  | prim (p : Prim)
  deriving DecidableEq

/-- The value the emitted `vcmd`/`hcmd` arithmetic produces when the relevant
clip-rectangle extent is `P`. -/
def cmdEval (P htotal : ℚ) (mulc divc : ℕ) (hbelow : ℚ) : ℚ :=
  (P - htotal) * (mulc : ℚ) / (divc : ℚ) + hbelow

/-- The fixed document preamble (print.py:517-538), with the page count
spliced in. -/
def preambleItems (pages : ℕ) : List OutItem :=
  [OutItem.raw "%!PS-Adobe-3.0",
   OutItem.raw "%%Creator: print.py from Simon Tatham\x27s Puzzle Collection",
   OutItem.raw "%%DocumentData: Clean7Bit",
   OutItem.raw "%%LanguageLevel: 1",
   OutItem.pagesDecl pages,
   OutItem.raw "%%DocumentNeededResources:",
   OutItem.raw "%%+ font Helvetica",
   OutItem.raw "%%DocumentSuppliedResources: procset Puzzles 0 0",
   OutItem.raw "%%EndComments",
   OutItem.raw "%%BeginProlog",
   OutItem.raw "%%BeginResource: procset Puzzles 0 0",
   OutItem.raw "/ctshow \x7b",
   OutItem.raw "  3 1 roll",
   OutItem.raw "  newpath 0 0 moveto (X) true charpath flattenpath pathbbox",
   OutItem.raw "  3 -1 roll add 2 div 3 1 roll pop pop sub moveto",
   OutItem.raw "  dup stringwidth pop 0.5 mul neg 0 rmoveto show",
   OutItem.raw "\x7d bind def",
   OutItem.raw "%%EndResource",
   OutItem.raw "%%EndProlog",
   OutItem.raw "%%BeginSetup",
   OutItem.raw "%%IncludeResource: font Helvetica",
   OutItem.raw "%%EndSetup"]

/-- Output for one page cell (print.py:568-597): a cell whose fragment is
empty (in particular every unfilled cell, initialised to `''` at
print.py:549) emits nothing at all; an occupied cell emits the `gsave`
wrapper, the two offset-arithmetic lines, `translate`, the fragment, and
`grestore`. -/
def cellEmission (results : List (Coords × List Prim)) (lr tb : List (ℚ × ℚ))
    (xx yy p y x : ℕ) : List OutItem :=
  match cellResult results xx yy p y x with
  | none => []
  | some (_, frag) =>
    if frag = [] then []
    else
      [OutItem.raw "gsave",
       OutItem.raw "clippath flattenpath pathbbox pop pop translate",
       OutItem.raw "clippath flattenpath pathbbox 4 2 roll pop pop",
       OutItem.vcmd (extSum tb) (yy - y) (yy + 1) (hbelowOf tb y),
       OutItem.hcmd (extSum lr) (x + 1) (xx + 1) (wleftOf lr x),
       OutItem.raw "translate"]
      ++ frag.map OutItem.prim
      ++ [OutItem.raw "grestore"]

/-- Output for one page (print.py:543-599): page marker, `save`, the cell
emissions in row-major order, `restore showpage`. -/
def pageItems (results : List (Coords × List Prim)) (xx yy p : ℕ) :
    List OutItem :=
  [OutItem.pageMark (p + 1), OutItem.raw "save"]
  ++ ((List.range yy).flatMap fun y =>
      (List.range xx).flatMap fun x =>
        cellEmission results (lrboundOf results xx yy p)
          (tbboundOf results xx yy p) xx yy p y x)
  ++ [OutItem.raw "restore showpage"]

/-- The page count (print.py:514): `int((len(ids) + ppp - 1) / ppp)`. -/
def pagesFor (k ppp : ℕ) : ℕ := (k + ppp - 1) / ppp

/-- The per-line newline stripping of the input loop (print.py:511):
`if s[-1:] == "\n": s = s[:-1]`. -/
def stripNL (s : List Char) : List Char :=
  if s.getLast? = some '\n' then s.dropLast else s

/-- The descriptors the fill loop passes to the formatter, in call order:
page by page, row-major within a page, stopping when the input list is
exhausted (the `break` at print.py:555-556). -/
def pageCellCalls (ids : List (List Char)) (xx yy : ℕ) : List (List Char) :=
  (List.range (pagesFor ids.length (xx * yy))).flatMap fun p =>
    (List.range yy).flatMap fun y =>
      (List.range xx).filterMap fun x => ids[p * (xx * yy) + y * xx + x]?

/-- Run a fallible function over a list, failing as soon as one element
fails: the abort-on-first-error behaviour of calling the formatter inside
the fill loop, where an exception kills the whole run. -/
def optMapM (f : α → Option β) : List α → Option (List β)
  | [] => some []
  | a :: l => (f a).bind fun b => (optMapM f l).map fun bs => b :: bs

/-- The whole document body given the formatter results: preamble, each
page's items, and the `%%EOF` trailer (print.py:517-601). -/
def docItems (results : List (Coords × List Prim)) (xx yy pages : ℕ) :
    List OutItem :=
  preambleItems pages
  ++ ((List.range pages).flatMap fun p => pageItems results xx yy p)
  ++ [OutItem.raw "%%EOF"]

/-- The whole program for a valid invocation with page shape `xx` columns by
`yy` rows: strip each input line's trailing newline, call the formatter on
every descriptor in fill order, and assemble the document; any formatter
failure aborts the entire run with no complete document (`none`). -/
def documentRun (fmt : List Char → Option (Coords × List Prim))
    (inputLines : List (List Char)) (xx yy : ℕ) : Option (List OutItem) :=
  (optMapM fmt (pageCellCalls (inputLines.map stripNL) xx yy)).map fun results =>
    docItems results xx yy (pagesFor (inputLines.map stripNL).length (xx * yy))

/-- Exit status of the run: 0 when the document completed, 1 when the run
aborted. -/
def runExitCode (run : Option (List OutItem)) : ℕ :=
  match run with
  | some _ => 0
  | none => 1

/-- Whether a document line is a page marker. -/
def isPageMarkB : OutItem → Bool
  | OutItem.pageMark _ => true
  | _ => false

/-- Formatter stub used to exercise the compositor on its own: every
descriptor maps to a degenerate fragment. -/
def stubFormatter : List Char → Option (Coords × List Prim) :=
  fun _ => some ((0, 0, 0, 0), [Prim.stroke])

-- ============ helper lemmas ============

theorem splitOnChar_ne_nil (sep : Char) (l : List Char) : splitOnChar sep l ≠ [] := by
  induction l with
  | nil => simp [splitOnChar]
  | cons c rest ih =>
    rw [splitOnChar]
    split
    · simp
    · rcases h : splitOnChar sep rest with _ | ⟨g, gs⟩
      · simp
      · simp

theorem splitOnChar_not_mem (sep : Char) (l : List Char) (h : sep ∉ l) :
    splitOnChar sep l = [l] := by
  induction l with
  | nil => rfl
  | cons c rest ih =>
    have hc : ¬ c = sep := fun he => h (he ▸ List.mem_cons_self c rest)
    have hr : sep ∉ rest := fun hm => h (List.mem_cons_of_mem c hm)
    rw [splitOnChar, if_neg hc, ih hr]

theorem splitOnChar_append (sep : Char) (a b : List Char) (h : sep ∉ a) :
    splitOnChar sep (a ++ sep :: b) = a :: splitOnChar sep b := by
  induction a with
  | nil => simp [splitOnChar]
  | cons c as ih =>
    have hc : ¬ c = sep := fun he => h (he ▸ List.mem_cons_self c as)
    have ha : sep ∉ as := fun hm => h (List.mem_cons_of_mem c hm)
    rw [List.cons_append, splitOnChar, if_neg hc, ih ha]

theorem splitOnChar_eq_single (sep : Char) : ∀ (l m : List Char),
    splitOnChar sep l = [m] → l = m ∧ sep ∉ m := by
  intro l
  induction l with
  | nil =>
    intro m h
    rw [splitOnChar] at h
    injection h with h1 _
    subst h1
    simp
  | cons c rest ih =>
    intro m h
    rw [splitOnChar] at h
    by_cases hc : c = sep
    · rw [if_pos hc] at h
      injection h with _ h2
      exact absurd h2 (splitOnChar_ne_nil sep rest)
    · rw [if_neg hc] at h
      rcases hr : splitOnChar sep rest with _ | ⟨g, gs⟩
      · exact absurd hr (splitOnChar_ne_nil sep rest)
      · rw [hr] at h
        injection h with h1 h2
        have hg := ih g (by rw [hr, h2])
        constructor
        · rw [← h1, hg.1]
        · rw [← h1]
          simp only [List.mem_cons]
          rintro (h' | h')
          · exact hc h'.symm
          · exact hg.2 h'

theorem splitOnChar_eq_pair (sep : Char) : ∀ (l a b : List Char),
    splitOnChar sep l = [a, b] → l = a ++ sep :: b ∧ sep ∉ a ∧ sep ∉ b := by
  intro l
  induction l with
  | nil =>
    intro a b h
    rw [splitOnChar] at h
    injection h with _ h2
    exact absurd h2.symm (by simp)
  | cons c rest ih =>
    intro a b h
    rw [splitOnChar] at h
    by_cases hc : c = sep
    · rw [if_pos hc] at h
      injection h with h1 h2
      have hs := splitOnChar_eq_single sep rest b h2
      refine ⟨?_, by simp [← h1], hs.2⟩
      rw [← h1, hc, hs.1]
      rfl
    · rw [if_neg hc] at h
      rcases hr : splitOnChar sep rest with _ | ⟨g, gs⟩
      · exact absurd hr (splitOnChar_ne_nil sep rest)
      · rw [hr] at h
        injection h with h1 h2
        have := ih g b (by rw [hr, h2])
        refine ⟨?_, ?_, this.2.2⟩
        · rw [← h1, this.1]
          rfl
        · rw [← h1]
          simp only [List.mem_cons]
          rintro (h' | h')
          · exact hc h'.symm
          · exact this.2.1 h'

-- ============ C6 ============

/-- C6: the net renderer's orientation canonicalization maps each rotation
class to its canonical code and is idempotent on every value. -/
theorem c6_net_canonicalization :
    (netCanon 1 = 1 ∧ netCanon 2 = 1 ∧ netCanon 4 = 1 ∧ netCanon 8 = 1) ∧
    (netCanon 5 = 5 ∧ netCanon 10 = 5) ∧
    (netCanon 3 = 9 ∧ netCanon 6 = 9 ∧ netCanon 9 = 9 ∧ netCanon 12 = 9) ∧
    (netCanon 7 = 13 ∧ netCanon 11 = 13 ∧ netCanon 13 = 13 ∧ netCanon 14 = 13) ∧
    ∀ v : Int, netCanon (netCanon v) = netCanon v := by
  refine ⟨by decide, by decide, by decide, by decide, fun v => ?_⟩
  by_cases h1 : v = 1 ∨ v = 2 ∨ v = 4 ∨ v = 8
  · have hv : netCanon v = 1 := by simp [netCanon, h1]
    rw [hv]; decide
  by_cases h2 : v = 5 ∨ v = 10
  · have hv : netCanon v = 5 := by simp [netCanon, h1, h2]
    rw [hv]; decide
  by_cases h3 : v = 3 ∨ v = 6 ∨ v = 9 ∨ v = 12
  · have hv : netCanon v = 9 := by simp [netCanon, h1, h2, h3]
    rw [hv]; decide
  by_cases h4 : v = 7 ∨ v = 11 ∨ v = 13 ∨ v = 14
  · have hv : netCanon v = 13 := by simp [netCanon, h1, h2, h3, h4]
    rw [hv]; decide
  · have hv : netCanon v = v := by simp [netCanon, h1, h2, h3, h4]
    rw [hv]
    exact hv

-- ============ C5 ============

/-- C5: decoding does not terminate on an unrecognized seed character.  On
the slant descriptor `1x1:5` the loop body of `slant_format` fixes the state
`(seed = "5", grid = [])` while the loop guard `len(seed) > 0` stays true,
so the source loops forever instead of failing; the embedded decoder marks
the stuck seed as `none`. -/
theorem c5_unrecognized_char_loops :
    (∀ n : ℕ, slantLoopStep^[n] (['5'], ([] : List Int)) = (['5'], [])) ∧
    slantDecode ("1x1:5".toList) = none := by
  constructor
  · intro n
    induction n with
    | zero => rfl
    | succ n ih => rw [Function.iterate_succ_apply', ih]; decide
  · decide

-- ============ C4 ============

/-- C4 counterexample: an underscore appends no cell at all.  The shared
seed loop consumes `_` without extending the grid, so the seed `_` yields
zero cells (not one), and the rect descriptor `1x1:_1` decodes to the single
cell `[1]` (under the claim's reading the seed would resolve to two cells
and be rejected). -/
theorem c4_underscore_counterexample :
    runLengthSeedGrid ['_'] = some [] ∧
    (runLengthSeedGrid ['_']).map List.length = some 0 ∧
    rectDecode ("1x1:_1".toList) = some (1, 1, [1]) := by
  refine ⟨?_, ?_, ?_⟩ <;>
    simp [runLengthSeedGrid, rectDecode, splitOnChar, pairAtoi, pyAtoi,
      isLowerC, isDigitC, digitsVal, isPySpaceC]

/-- C4 amended: in the shared seed grammar of the rect and solo decoders, a
lowercase letter `c` appends `ord(c)-ord('a')+1` placeholder cells, while an
underscore is consumed without appending any cell (it is a zero-length run
separator). -/
theorem c4_run_length (c : Char) (rest rest2 : List Char)
    (hc : isLowerC c = true) :
    runLengthSeedGrid (c :: rest)
      = (runLengthSeedGrid rest).map
          (fun g => List.replicate (c.toNat - 'a'.toNat + 1) (-1) ++ g) ∧
    runLengthSeedGrid ('_' :: rest2) = runLengthSeedGrid rest2 := by
  constructor
  · rw [runLengthSeedGrid]
    simp [hc]
  · rw [runLengthSeedGrid]
    simp [isLowerC]

/-- C4 witness: the amended run-length rule at the concrete letter `c`
(three placeholders) and a concrete underscore seed. -/
theorem c4_run_length_witness :
    runLengthSeedGrid ['c', '1']
      = (runLengthSeedGrid ['1']).map
          (fun g => List.replicate ('c'.toNat - 'a'.toNat + 1) (-1) ++ g) ∧
    runLengthSeedGrid ['_', 'z'] = runLengthSeedGrid ['z'] :=
  c4_run_length 'c' ['1'] ['z'] (by decide)

-- ============ C2 ============

theorem guarded_decode_inv {A G R : Type} (pa : Option A) (sg : A → Option G)
    (cond : A → G → Prop) [inst : ∀ a g, Decidable (cond a g)]
    (mk : A → G → R) (r : R)
    (h : (pa.bind fun a => (sg a).bind fun g =>
          if cond a g then some (mk a g) else none) = some r) :
    ∃ a g, pa = some a ∧ sg a = some g ∧ cond a g ∧ mk a g = r := by
  rcases pa with _ | a
  · exact absurd h (by simp)
  rw [Option.some_bind] at h
  rcases hg : sg a with _ | g
  · rw [hg] at h
    exact absurd h (by simp)
  rw [hg, Option.some_bind] at h
  split at h
  · rename_i hc
    injection h with h
    exact ⟨a, g, rfl, hg, hc, h⟩
  · exact absurd h (by simp)

/-- C2: for every family, a successfully decoded descriptor yields a dense
cell array of length exactly width*height, where width and height are the
grid dimensions the decoder derives from the parameter section (rect, net
and lightup: `w*h`; solo: `(c*r)*(c*r)`; slant: `(w+1)*(h+1)`; dominosa:
`(n+2)*(n+1)`); the pattern family builds `w+h` row/column clue groups
instead of a dense array and that count is enforced the same way.  A seed
that resolves to any other number of cells (clue groups for pattern) makes
the decode fail. -/
theorem c2_cell_count :
    (∀ s w h g, rectDecode s = some (w, h, g) → (g.length : Int) = w * h) ∧
    (∀ s w h wr g hb vb, netDecode s = some (w, h, wr, g, hb, vb) →
      (g.length : Int) = w * h) ∧
    (∀ s w h rd, patternDecode s = some (w, h, rd) →
      (rd.length : Int) = w + h) ∧
    (∀ s c r g, soloDecode s = some (c, r, g) →
      (g.length : Int) = (c * r) * (c * r)) ∧
    (∀ s n g, dominosaDecode s = some (n, g) →
      (g.length : Int) = (n + 2) * (n + 1)) ∧
    (∀ s w h g, slantDecode s = some (w, h, g) →
      (g.length : Int) = (w + 1) * (h + 1)) ∧
    (∀ s w h g, lightupDecode s = some (w, h, g) → (g.length : Int) = w * h) ∧
    (∀ p sd w h g, ':' ∉ p → ':' ∉ sd → pairAtoi p = some (w, h) →
      runLengthSeedGrid sd = some g → (g.length : Int) ≠ w * h →
      rectDecode (p ++ ':' :: sd) = none) ∧
    (∀ p sd w h r, ':' ∉ p → ':' ∉ sd → pairAtoi (netParams p) = some (w, h) →
      netSeedLoop w sd [] [] [] = some r → ((r.1).length : Int) ≠ w * h →
      netDecode (p ++ ':' :: sd) = none) ∧
    (∀ p sd w h, ':' ∉ p → ':' ∉ sd → pairAtoi p = some (w, h) →
      (((splitOnChar '/' sd).map (splitOnChar '.')).length : Int) ≠ w + h →
      patternDecode (p ++ ':' :: sd) = none) ∧
    (∀ p sd c r g, ':' ∉ p → ':' ∉ sd → pairAtoi p = some (c, r) →
      runLengthSeedGrid sd = some g → (g.length : Int) ≠ (c * r) * (c * r) →
      soloDecode (p ++ ':' :: sd) = none) ∧
    (∀ p sd n g, ':' ∉ p → ':' ∉ sd → pyAtoi p = some n →
      dominosaSeedGrid sd = some g → (g.length : Int) ≠ (n + 2) * (n + 1) →
      dominosaDecode (p ++ ':' :: sd) = none) ∧
    (∀ p sd w h g, ':' ∉ p → ':' ∉ sd → pairAtoi p = some (w, h) →
      slantSeedGrid sd = some g → (g.length : Int) ≠ (w + 1) * (h + 1) →
      slantDecode (p ++ ':' :: sd) = none) ∧
    (∀ p sd w h g, ':' ∉ p → ':' ∉ sd → pairAtoi p = some (w, h) →
      lightupSeedGrid sd = some g → (g.length : Int) ≠ w * h →
      lightupDecode (p ++ ':' :: sd) = none) := by
  refine ⟨?_, ?_, ?_, ?_, ?_, ?_, ?_, ?_, ?_, ?_, ?_, ?_, ?_, ?_⟩
  · intro s w h g hd
    unfold rectDecode at hd
    rcases hsp : splitOnChar ':' s with _ | ⟨p, _ | ⟨sd, _ | ⟨e, tl⟩⟩⟩ <;>
      rw [hsp] at hd <;> dsimp only at hd
    · exact absurd hd (by simp)
    · exact absurd hd (by simp)
    · obtain ⟨wh, g0, hpa, hsg, hc, hmk⟩ :=
        guarded_decode_inv (pairAtoi p) (fun _ => runLengthSeedGrid sd)
          (fun wh grid => wh.1 * wh.2 = (grid.length : Int))
          (fun wh grid => (wh.1, wh.2, grid)) (w, h, g) hd
      injection hmk with hw hmk
      injection hmk with hh hg2
      subst hw
      subst hh
      subst hg2
      exact hc.symm
    · exact absurd hd (by simp)
  · intro s w h wr g hb vb hd
    unfold netDecode at hd
    rcases hsp : splitOnChar ':' s with _ | ⟨p, _ | ⟨sd, _ | ⟨e, tl⟩⟩⟩ <;>
      rw [hsp] at hd <;> dsimp only at hd
    · exact absurd hd (by simp)
    · exact absurd hd (by simp)
    · obtain ⟨wh, g0, hpa, hsg, hc, hmk⟩ :=
        guarded_decode_inv (pairAtoi (netParams p))
          (fun wh => netSeedLoop wh.1 sd [] [] [])
          (fun wh r => wh.1 * wh.2 = ((r.1).length : Int))
          (fun wh r => (wh.1, wh.2, netWrapFlag p, r.1, r.2.1, r.2.2))
          (w, h, wr, g, hb, vb) hd
      injection hmk with hw hmk
      injection hmk with hh hmk
      injection hmk with hwr hmk
      injection hmk with hg2 hmk
      subst hw
      subst hh
      subst hg2
      exact hc.symm
    · exact absurd hd (by simp)
  · intro s w h rd hd
    unfold patternDecode at hd
    rcases hsp : splitOnChar ':' s with _ | ⟨p, _ | ⟨sd, _ | ⟨e, tl⟩⟩⟩ <;>
      rw [hsp] at hd <;> dsimp only at hd
    · exact absurd hd (by simp)
    · exact absurd hd (by simp)
    · rcases hpa : pairAtoi p with _ | wh
      · rw [hpa] at hd
        exact absurd hd (by simp)
      rw [hpa, Option.some_bind] at hd
      split at hd
      · rename_i hc
        injection hd with hd
        injection hd with hw hd
        injection hd with hh hrd
        subst hw
        subst hh
        subst hrd
        exact hc.symm
      · exact absurd hd (by simp)
    · exact absurd hd (by simp)
  · intro s c r g hd
    unfold soloDecode at hd
    rcases hsp : splitOnChar ':' s with _ | ⟨p, _ | ⟨sd, _ | ⟨e, tl⟩⟩⟩ <;>
      rw [hsp] at hd <;> dsimp only at hd
    · exact absurd hd (by simp)
    · exact absurd hd (by simp)
    · obtain ⟨cr, g0, hpa, hsg, hc, hmk⟩ :=
        guarded_decode_inv (pairAtoi p) (fun _ => runLengthSeedGrid sd)
          (fun cr grid => (cr.1 * cr.2) * (cr.1 * cr.2) = (grid.length : Int))
          (fun cr grid => (cr.1, cr.2, grid)) (c, r, g) hd
      injection hmk with hcc hmk
      injection hmk with hrr hg2
      subst hcc
      subst hrr
      subst hg2
      exact hc.symm
    · exact absurd hd (by simp)
  · intro s n g hd
    unfold dominosaDecode at hd
    rcases hsp : splitOnChar ':' s with _ | ⟨p, _ | ⟨sd, _ | ⟨e, tl⟩⟩⟩ <;>
      rw [hsp] at hd <;> dsimp only at hd
    · exact absurd hd (by simp)
    · exact absurd hd (by simp)
    · obtain ⟨n0, g0, hpa, hsg, hc, hmk⟩ :=
        guarded_decode_inv (pyAtoi p) (fun _ => dominosaSeedGrid sd)
          (fun n0 grid => (n0 + 2) * (n0 + 1) = (grid.length : Int))
          (fun n0 grid => (n0, grid)) (n, g) hd
      injection hmk with hn hg2
      subst hn
      subst hg2
      exact hc.symm
    · exact absurd hd (by simp)
  · intro s w h g hd
    unfold slantDecode at hd
    rcases hsp : splitOnChar ':' s with _ | ⟨p, _ | ⟨sd, _ | ⟨e, tl⟩⟩⟩ <;>
      rw [hsp] at hd <;> dsimp only at hd
    · exact absurd hd (by simp)
    · exact absurd hd (by simp)
    · obtain ⟨wh, g0, hpa, hsg, hc, hmk⟩ :=
        guarded_decode_inv (pairAtoi p) (fun _ => slantSeedGrid sd)
          (fun wh grid => (wh.1 + 1) * (wh.2 + 1) = (grid.length : Int))
          (fun wh grid => (wh.1, wh.2, grid)) (w, h, g) hd
      injection hmk with hw hmk
      injection hmk with hh hg2
      subst hw
      subst hh
      subst hg2
      exact hc.symm
    · exact absurd hd (by simp)
  · intro s w h g hd
    unfold lightupDecode at hd
    rcases hsp : splitOnChar ':' s with _ | ⟨p, _ | ⟨sd, _ | ⟨e, tl⟩⟩⟩ <;>
      rw [hsp] at hd <;> dsimp only at hd
    · exact absurd hd (by simp)
    · exact absurd hd (by simp)
    · obtain ⟨wh, g0, hpa, hsg, hc, hmk⟩ :=
        guarded_decode_inv (pairAtoi p) (fun _ => lightupSeedGrid sd)
          (fun wh grid => wh.1 * wh.2 = (grid.length : Int))
          (fun wh grid => (wh.1, wh.2, grid)) (w, h, g) hd
      injection hmk with hw hmk
      injection hmk with hh hg2
      subst hw
      subst hh
      subst hg2
      exact hc.symm
    · exact absurd hd (by simp)
  · intro p sd w h g h1 h2 hpa hsg hlen
    have hsp : splitOnChar ':' (p ++ ':' :: sd) = [p, sd] := by
      rw [splitOnChar_append ':' p sd h1, splitOnChar_not_mem ':' sd h2]
    unfold rectDecode
    rw [hsp]
    dsimp only
    rw [hpa, hsg]
    simp only [Option.some_bind]
    rw [if_neg (fun he => hlen he.symm)]
  · intro p sd w h r h1 h2 hpa hsg hlen
    have hsp : splitOnChar ':' (p ++ ':' :: sd) = [p, sd] := by
      rw [splitOnChar_append ':' p sd h1, splitOnChar_not_mem ':' sd h2]
    unfold netDecode
    rw [hsp]
    dsimp only
    rw [hpa]
    simp only [Option.some_bind]
    rw [hsg]
    simp only [Option.some_bind]
    rw [if_neg (fun he => hlen he.symm)]
  · intro p sd w h h1 h2 hpa hlen
    have hsp : splitOnChar ':' (p ++ ':' :: sd) = [p, sd] := by
      rw [splitOnChar_append ':' p sd h1, splitOnChar_not_mem ':' sd h2]
    unfold patternDecode
    rw [hsp]
    dsimp only
    rw [hpa]
    simp only [Option.some_bind]
    rw [if_neg (fun he => hlen he.symm)]
  · intro p sd c r g h1 h2 hpa hsg hlen
    have hsp : splitOnChar ':' (p ++ ':' :: sd) = [p, sd] := by
      rw [splitOnChar_append ':' p sd h1, splitOnChar_not_mem ':' sd h2]
    unfold soloDecode
    rw [hsp]
    dsimp only
    rw [hpa, hsg]
    simp only [Option.some_bind]
    rw [if_neg (fun he => hlen he.symm)]
  · intro p sd n g h1 h2 hpa hsg hlen
    have hsp : splitOnChar ':' (p ++ ':' :: sd) = [p, sd] := by
      rw [splitOnChar_append ':' p sd h1, splitOnChar_not_mem ':' sd h2]
    unfold dominosaDecode
    rw [hsp]
    dsimp only
    rw [hpa, hsg]
    simp only [Option.some_bind]
    rw [if_neg (fun he => hlen he.symm)]
  · intro p sd w h g h1 h2 hpa hsg hlen
    have hsp : splitOnChar ':' (p ++ ':' :: sd) = [p, sd] := by
      rw [splitOnChar_append ':' p sd h1, splitOnChar_not_mem ':' sd h2]
    unfold slantDecode
    rw [hsp]
    dsimp only
    rw [hpa, hsg]
    simp only [Option.some_bind]
    rw [if_neg (fun he => hlen he.symm)]
  · intro p sd w h g h1 h2 hpa hsg hlen
    have hsp : splitOnChar ':' (p ++ ':' :: sd) = [p, sd] := by
      rw [splitOnChar_append ':' p sd h1, splitOnChar_not_mem ':' sd h2]
    unfold lightupDecode
    rw [hsp]
    dsimp only
    rw [hpa, hsg]
    simp only [Option.some_bind]
    rw [if_neg (fun he => hlen he.symm)]

/-- C2 witness: the cell-count law at one concrete decodable descriptor per
family (rect `1x1:1`, net `2x2:1a2b`, pattern `1x1:1/1`, solo `1x2:d`,
dominosa `1:001122`, slant `1x1:1a2a`, lightup `1x1:B`) and one rejected
wrong-length seed per family. -/
theorem c2_cell_count_witness :
    ((([1] : List Int).length : Int) = 1 * 1) ∧
    ((([1, 10, 2, 11] : List Int).length : Int) = 2 * 2) ∧
    ((([[['1']], [['1']]] : List (List (List Char))).length : Int) = 1 + 1) ∧
    ((([-1, -1, -1, -1] : List Int).length : Int) = ((1 : Int) * 2) * (1 * 2)) ∧
    ((([0, 0, 1, 1, 2, 2] : List Int).length : Int) = ((1 : Int) + 2) * (1 + 1)) ∧
    ((([1, -1, 2, -1] : List Int).length : Int) = ((1 : Int) + 1) * (1 + 1)) ∧
    ((([-1] : List Int).length : Int) = 1 * 1) ∧
    rectDecode ("1x1".toList ++ ':' :: "d".toList) = none ∧
    netDecode ("1x1".toList ++ ':' :: "12".toList) = none ∧
    patternDecode ("1x1".toList ++ ':' :: "1".toList) = none ∧
    soloDecode ("1x1".toList ++ ':' :: "d".toList) = none ∧
    dominosaDecode ("1".toList ++ ':' :: "0".toList) = none ∧
    slantDecode ("1x1".toList ++ ':' :: "1".toList) = none ∧
    lightupDecode ("1x1".toList ++ ':' :: "BB".toList) = none := by
  have hc2 := c2_cell_count
  refine ⟨?_, ?_, ?_, ?_, ?_, ?_, ?_, ?_, ?_, ?_, ?_, ?_, ?_, ?_⟩
  · exact hc2.1 "1x1:1".toList 1 1 [1]
      (by simp [rectDecode, splitOnChar, pairAtoi, pyAtoi, runLengthSeedGrid,
        isLowerC, isDigitC, isPySpaceC, digitsVal])
  · exact hc2.2.1 "2x2:1a2b".toList 2 2 false [1, 10, 2, 11] [] []
      (by simp [netDecode, netParams, netWrapFlag, netSeedLoop, hexVal,
        splitOnChar, pairAtoi, pyAtoi, isDigitC, isPySpaceC, digitsVal])
  · exact hc2.2.2.1 "1x1:1/1".toList 1 1 [[['1']], [['1']]] (by decide)
  · exact hc2.2.2.2.1 "1x2:d".toList 1 2 [-1, -1, -1, -1]
      (by simp [soloDecode, splitOnChar, pairAtoi, pyAtoi, runLengthSeedGrid,
        isLowerC, isDigitC, isPySpaceC, digitsVal])
  · exact hc2.2.2.2.2.1 "1:001122".toList 1 [0, 0, 1, 1, 2, 2]
      (by simp [dominosaDecode, splitOnChar, pyAtoi, dominosaSeedGrid,
        isDigitC, isPySpaceC, digitsVal])
  · exact hc2.2.2.2.2.2.1 "1x1:1a2a".toList 1 1 [1, -1, 2, -1] (by decide)
  · exact hc2.2.2.2.2.2.2.1 "1x1:B".toList 1 1 [-1] (by decide)
  · exact hc2.2.2.2.2.2.2.2.1 "1x1".toList "d".toList 1 1 [-1, -1, -1, -1]
      (by decide) (by decide) (by decide)
      (by simp [runLengthSeedGrid, isLowerC, isDigitC]) (by decide)
  · exact hc2.2.2.2.2.2.2.2.2.1 "1x1".toList "12".toList 1 1
      ([1, 2], [], [])
      (by decide) (by decide) (by decide)
      (by simp [netSeedLoop, hexVal, isDigitC]) (by decide)
  · exact hc2.2.2.2.2.2.2.2.2.2.1 "1x1".toList "1".toList 1 1
      (by decide) (by decide) (by decide) (by decide)
  · exact hc2.2.2.2.2.2.2.2.2.2.2.1 "1x1".toList "d".toList 1 1
      [-1, -1, -1, -1]
      (by decide) (by decide) (by decide)
      (by simp [runLengthSeedGrid, isLowerC, isDigitC]) (by decide)
  · exact hc2.2.2.2.2.2.2.2.2.2.2.2.1 "1".toList "0".toList 1 [0]
      (by decide) (by decide) (by decide)
      (by simp [dominosaSeedGrid, isDigitC, digitsVal]) (by decide)
  · exact hc2.2.2.2.2.2.2.2.2.2.2.2.2.1 "1x1".toList "1".toList 1 1 [1]
      (by decide) (by decide) (by decide) (by decide) (by decide)
  · exact hc2.2.2.2.2.2.2.2.2.2.2.2.2.2 "1x1".toList "BB".toList 1 1
      [-1, -1]
      (by decide) (by decide) (by decide) (by decide) (by decide)

-- ============ C7 ============

theorem pairAtoi_inv (params : List Char) (w h : Int)
    (hp : pairAtoi params = some (w, h)) :
    ∃ a b, splitOnChar 'x' params = [a, b] ∧
      pyAtoi a = some w ∧ pyAtoi b = some h := by
  unfold pairAtoi at hp
  rcases hsp : splitOnChar 'x' params with _ | ⟨a, _ | ⟨b, _ | ⟨e, tl⟩⟩⟩ <;>
    rw [hsp] at hp <;> dsimp only [List.map] at hp
  · exact absurd hp (by simp)
  · rcases ha : pyAtoi a with _ | va <;> rw [ha] at hp <;>
      exact absurd hp (by simp)
  · rcases ha : pyAtoi a with _ | va
    · rw [ha] at hp
      exact absurd hp (by simp)
    rcases hb : pyAtoi b with _ | vb
    · rw [ha, hb] at hp
      rcases va with _ | _ <;> exact absurd hp (by simp)
    rw [ha, hb] at hp
    dsimp only at hp
    injection hp with hp
    injection hp with hw hh
    exact ⟨a, b, rfl, by rw [ha, hw], by rw [hb, hh]⟩
  · rcases ha : pyAtoi a with _ | va <;> rcases hb : pyAtoi b with _ | vb <;>
      rw [ha, hb] at hp <;> exact absurd hp (by simp)

/-- C7 counterexample: decode does not require two positive integers
separated by `x`.  The dominosa parameter section is the single integer `1`
(no `x` at all) and decodes successfully, and rect accepts the
non-positive dimensions `0x0` with an empty seed. -/
theorem c7_params_counterexample :
    dominosaDecode ("1:001122".toList) = some (1, [0, 0, 1, 1, 2, 2]) ∧
    rectDecode ("0x0:".toList) = some (0, 0, []) := by
  constructor
  · simp [dominosaDecode, splitOnChar, pyAtoi, dominosaSeedGrid, isDigitC,
      isPySpaceC, digitsVal]
  · simp [rectDecode, splitOnChar, pairAtoi, pyAtoi, runLengthSeedGrid,
      isDigitC, isPySpaceC, digitsVal]

/-- C7 amended: each family rejects a parameter section its own parameter
grammar cannot parse.  A successful rect decode forces the parameter section
to split on `x` into exactly two tokens accepted by `string.atoi` (with no
positivity requirement), while a successful dominosa decode forces the whole
parameter section to be a single `string.atoi` integer, with no `x`
separator involved. -/
theorem c7_params_grammar (params seed params2 seed2 : List Char)
    (w h n : Int) (g₁ g₂ : List Int)
    (h₁ : ':' ∉ params) (h₂ : ':' ∉ seed)
    (h₃ : ':' ∉ params2) (h₄ : ':' ∉ seed2)
    (h₅ : rectDecode (params ++ ':' :: seed) = some (w, h, g₁))
    (h₆ : dominosaDecode (params2 ++ ':' :: seed2) = some (n, g₂)) :
    (∃ a b, params = a ++ 'x' :: b ∧ 'x' ∉ a ∧ 'x' ∉ b ∧
      pyAtoi a = some w ∧ pyAtoi b = some h) ∧
    pyAtoi params2 = some n := by
  constructor
  · have hsp : splitOnChar ':' (params ++ ':' :: seed) = [params, seed] := by
      rw [splitOnChar_append ':' params seed h₁, splitOnChar_not_mem ':' seed h₂]
    unfold rectDecode at h₅
    rw [hsp] at h₅
    dsimp only at h₅
    rcases hpa : pairAtoi params with _ | ⟨w0, h0⟩
    · rw [hpa] at h₅
      exact absurd h₅ (by simp)
    rw [hpa] at h₅
    rcases hsg : runLengthSeedGrid seed with _ | g0
    · rw [hsg] at h₅
      exact absurd h₅ (by simp)
    rw [hsg] at h₅
    simp only [Option.some_bind] at h₅
    split at h₅
    · injection h₅ with h₅
      injection h₅ with hw h₅
      injection h₅ with hh hg
      obtain ⟨a, b, hab, hwa, hhb⟩ := pairAtoi_inv params w0 h0 hpa
      obtain ⟨hpe, hxa, hxb⟩ := splitOnChar_eq_pair 'x' params a b hab
      exact ⟨a, b, hpe, hxa, hxb, by rw [hwa, hw], by rw [hhb, hh]⟩
    · exact absurd h₅ (by simp)
  · have hsp : splitOnChar ':' (params2 ++ ':' :: seed2) = [params2, seed2] := by
      rw [splitOnChar_append ':' params2 seed2 h₃,
        splitOnChar_not_mem ':' seed2 h₄]
    unfold dominosaDecode at h₆
    rw [hsp] at h₆
    dsimp only at h₆
    rcases hpa : pyAtoi params2 with _ | n0
    · rw [hpa] at h₆
      exact absurd h₆ (by simp)
    rw [hpa] at h₆
    rcases hsg : dominosaSeedGrid seed2 with _ | g0
    · rw [hsg] at h₆
      exact absurd h₆ (by simp)
    rw [hsg] at h₆
    simp only [Option.some_bind] at h₆
    split at h₆
    · injection h₆ with h₆
      injection h₆ with hn hg
      exact congrArg some hn
    · exact absurd h₆ (by simp)

/-- C7 witness: the parameter-grammar law at the concrete rect descriptor
`2x3:1a2a1a` and dominosa descriptor `1:001122`. -/
theorem c7_params_grammar_witness :
    (∃ a b, "2x3".toList = a ++ 'x' :: b ∧ 'x' ∉ a ∧ 'x' ∉ b ∧
      pyAtoi a = some 2 ∧ pyAtoi b = some 3) ∧
    pyAtoi "1".toList = some 1 :=
  c7_params_grammar "2x3".toList "1a2a1a".toList "1".toList "001122".toList
    2 3 1 [1, -1, 2, -1, 1, -1] [0, 0, 1, 1, 2, 2]
    (by decide) (by decide) (by decide) (by decide)
    (by simp [rectDecode, splitOnChar, pairAtoi, pyAtoi, runLengthSeedGrid,
      isLowerC, isDigitC, isPySpaceC, digitsVal])
    (by simp [dominosaDecode, splitOnChar, pyAtoi, dominosaSeedGrid,
      isDigitC, isPySpaceC, digitsVal])

-- ============ C8 ============

theorem widthMarks_append (a b : List Prim) :
    widthMarks (a ++ b) = widthMarks a ++ widthMarks b :=
  List.filterMap_append a b _

theorem soloThinV_shape (c r : Int) :
    ∀ p ∈ soloThinV c r, isSetWidthP p = false ∧ isDecorP p = false := by
  intro p hp
  rcases List.mem_filterMap.mp hp with ⟨x, _, hx⟩
  split at hx
  · injection hx with hx
    rw [← hx]
    exact ⟨rfl, rfl⟩
  · exact absurd hx (by simp)

theorem soloThinH_shape (c r : Int) :
    ∀ p ∈ soloThinH c r, isSetWidthP p = false ∧ isDecorP p = false := by
  intro p hp
  rcases List.mem_filterMap.mp hp with ⟨x, _, hx⟩
  split at hx
  · injection hx with hx
    rw [← hx]
    exact ⟨rfl, rfl⟩
  · exact absurd hx (by simp)

theorem soloThickV_shape (c r : Int) :
    ∀ p ∈ soloThickV c r, isSetWidthP p = false ∧ isDecorP p = false := by
  intro p hp
  rw [soloThickV] at hp
  split at hp
  · exact absurd hp (by simp)
  · rcases List.mem_map.mp hp with ⟨x, _, hx⟩
    rw [← hx]
    exact ⟨rfl, rfl⟩

theorem soloThickH_shape (c r : Int) :
    ∀ p ∈ soloThickH c r, isSetWidthP p = false ∧ isDecorP p = false := by
  intro p hp
  rw [soloThickH] at hp
  split at hp
  · exact absurd hp (by simp)
  · rcases List.mem_map.mp hp with ⟨x, _, hx⟩
    rw [← hx]
    exact ⟨rfl, rfl⟩

theorem soloNumbers_shape (c r : Int) (grid : List Int) :
    ∀ p ∈ soloNumbers c r grid, isSetWidthP p = false ∧ isDecorP p = true := by
  intro p hp
  rcases List.mem_flatMap.mp hp with ⟨y, _, hy⟩
  rcases List.mem_filterMap.mp hy with ⟨x, _, hx⟩
  split at hx
  · injection hx with hx
    rw [← hx]
    exact ⟨rfl, rfl⟩
  · exact absurd hx (by simp)

theorem widthMarks_eq_nil (l : List Prim)
    (h : ∀ p ∈ l, isSetWidthP p = false) : widthMarks l = [] := by
  rw [widthMarks, List.filterMap_eq_nil_iff]
  intro p hp
  cases p <;> first | rfl | exact absurd (h _ hp) (by simp [isSetWidthP])

theorem soloPre_no_decor (c r : Int) : ∀ p ∈ soloPre c r, isDecorP p = false := by
  intro p hp
  rw [soloPre] at hp
  rcases List.mem_append.mp hp with h | h
  · rcases List.mem_append.mp h with h | h
    · rcases List.mem_append.mp h with h | h
      · rcases List.mem_append.mp h with h | h
        · rcases List.mem_append.mp h with h | h
          · rcases List.mem_append.mp h with h | h
            · simp only [List.mem_cons, List.not_mem_nil, or_false] at h
              rcases h with rfl | rfl <;> rfl
            · exact (soloThinV_shape c r p h).2
          · exact (soloThinH_shape c r p h).2
        · simp only [List.mem_cons, List.not_mem_nil, or_false] at h
          rcases h with rfl | rfl <;> rfl
      · exact (soloThickV_shape c r p h).2
    · exact (soloThickH_shape c r p h).2
  · simp only [List.mem_cons, List.not_mem_nil, or_false] at h
    rcases h with rfl | rfl | rfl | rfl | rfl <;> rfl

theorem widthMarks_soloPre (c r : Int) :
    widthMarks (soloPre c r) = [1/10, 1, 3/2] := by
  rw [soloPre]
  simp only [widthMarks_append,
    widthMarks_eq_nil _ (fun p hp => (soloThinV_shape c r p hp).1),
    widthMarks_eq_nil _ (fun p hp => (soloThinH_shape c r p hp).1),
    widthMarks_eq_nil _ (fun p hp => (soloThickV_shape c r p hp).1),
    widthMarks_eq_nil _ (fun p hp => (soloThickH_shape c r p hp).1)]
  rfl

theorem tiered_index (A B : List Prim)
    (hA : ∀ p ∈ A, isDecorP p = false)
    (hB : ∀ p ∈ B, isSetWidthP p = false) :
    ∀ i j : Fin (A ++ B).length,
      isSetWidthP ((A ++ B).get i) = true → isDecorP ((A ++ B).get j) = true →
      (i : ℕ) < (j : ℕ) := by
  intro i j hi hj
  have hiA : (i : ℕ) < A.length := by
    by_contra hge
    push_neg at hge
    rw [List.get_eq_getElem, List.getElem_append_right hge] at hi
    exact absurd hi (by simp [hB _ (List.getElem_mem _)])
  have hjB : A.length ≤ (j : ℕ) := by
    by_contra hlt2
    push_neg at hlt2
    rw [List.get_eq_getElem, List.getElem_append_left hlt2] at hj
    exact absurd hj (by simp [hA _ (List.getElem_mem _)])
  omega

/-- C8 amended: the tiered emission order holds for the solo renderer, for
every decoded grid with positive block dimensions: the line widths set are
exactly 0.1 (thin internal), then 1 (thicker block boundaries), then 1.5
(bold exterior border), strictly increasing, and every per-cell decoration
is emitted after every width change.  (The order does not hold for every
family: see the slant counterexample.) -/
theorem c8_tiered_order (c r : Int) (grid : List Int)
    (hc : 0 < c) (hr : 0 < r) :
    widthMarks (soloFragment c r grid) = [1/10, 1, 3/2] ∧
    tieredOk (soloFragment c r grid) := by
  have hwm : widthMarks (soloFragment c r grid) = [1/10, 1, 3/2] := by
    rw [soloFragment, widthMarks_append, widthMarks_soloPre,
      widthMarks_eq_nil _ (fun p hp => (soloNumbers_shape c r grid p hp).1)]
    rfl
  refine ⟨hwm, ?_, ?_⟩
  · rw [hwm]
    simp only [List.sorted_cons, List.mem_cons, List.not_mem_nil, or_false,
      List.mem_singleton, List.sorted_nil, and_true]
    norm_num
  · rw [soloFragment]
    exact tiered_index (soloPre c r) (soloNumbers c r grid)
      (soloPre_no_decor c r)
      (fun p hp => (soloNumbers_shape c r grid p hp).1)

/-- C8 witness: the solo tier law at the concrete 1x1 grid `[5]`. -/
theorem c8_tiered_order_witness :
    widthMarks (soloFragment 1 1 [5]) = [1/10, 1, 3/2] :=
  (c8_tiered_order 1 1 [5] (by decide) (by decide)).1

/-- C8 counterexample: the slant renderer emits its bold exterior border
(width 1) before its thin internal grid lines (width 0.01), so its width
marks are not increasing and the claimed tiered order fails on the decoded
slant puzzle `1x1:1a2a`. -/
theorem c8_order_counterexample :
    slantDecode ("1x1:1a2a".toList) = some (1, 1, [1, -1, 2, -1]) ∧
    widthMarks (slantFragment 1 1 [1, -1, 2, -1]) = [1, 1/100] ∧
    ¬ tieredOk (slantFragment 1 1 [1, -1, 2, -1]) := by
  refine ⟨by decide, by rfl, ?_⟩
  intro hT
  have hs := hT.1
  rw [(by rfl : widthMarks (slantFragment 1 1 [1, -1, 2, -1]) = [1, 1/100])] at hs
  rw [List.sorted_cons] at hs
  have h1 := hs.1 (1/100) (by simp)
  norm_num at h1

-- ============ C1 ============

theorem extSum_nil : extSum [] = 0 := rfl

theorem extSum_append (a b : List (ℚ × ℚ)) :
    extSum (a ++ b) = extSum a + extSum b := by
  simp [extSum]

theorem extSum_cons (p : ℚ × ℚ) (l : List (ℚ × ℚ)) :
    extSum (p :: l) = p.1 + p.2 + extSum l := by
  simp [extSum]

theorem extSum_drop_succ (l : List (ℚ × ℚ)) (i : ℕ) (h : i < l.length) :
    extSum (l.drop i)
      = (l.getD i (0, 0)).1 + (l.getD i (0, 0)).2 + extSum (l.drop (i + 1)) := by
  rw [List.drop_eq_getElem_cons h, extSum_cons, List.getD_eq_getElem l (0, 0) h]

theorem extSum_take_succ (l : List (ℚ × ℚ)) (i : ℕ) (h : i < l.length) :
    extSum (l.take (i + 1))
      = extSum (l.take i) + ((l.getD i (0, 0)).1 + (l.getD i (0, 0)).2) := by
  rw [← List.take_concat_get l i h, List.concat_eq_append, extSum_append,
    List.getD_eq_getElem l (0, 0) h, extSum_cons, extSum_nil]
  ring

/-- C1 amended: on each axis the gutter `g = (page extent - envelope sum) /
(page-shape cell count + 1)` satisfies `g*(N+1) + E = P` with `N` the
configured number of page cells along the axis; the emitted offsets place
adjacent rows' (and columns') envelope boxes exactly `g` apart, the first
row/column envelope box exactly `g` from one page edge, and the last
configured row/column envelope box exactly `g` from the other.  (With `N`
read as the number of occupied cells the claim fails on a partially filled
page: see the counterexample.)  The arithmetic the emitted offset lines
perform on the clip extents (`cmdEval`) evaluates to exactly these
offsets. -/
theorem c1_gutter_layout (P Q : ℚ) (tb lr : List (ℚ × ℚ)) (yy xx y x : ℕ)
    (hyy : tb.length = yy) (hxx : lr.length = xx)
    (hy : y + 1 < yy) (hx : x + 1 < xx) :
    gutterOf P tb yy * ((yy : ℚ) + 1) + extSum tb = P ∧
    (vOffset P tb yy y - (tb.getD y (0, 0)).2)
      - (vOffset P tb yy (y + 1) + (tb.getD (y + 1) (0, 0)).1)
      = gutterOf P tb yy ∧
    P - (vOffset P tb yy 0 + (tb.getD 0 (0, 0)).1) = gutterOf P tb yy ∧
    vOffset P tb yy (yy - 1) - (tb.getD (yy - 1) (0, 0)).2 = gutterOf P tb yy ∧
    (hOffset Q lr xx (x + 1) - (lr.getD (x + 1) (0, 0)).1)
      - (hOffset Q lr xx x + (lr.getD x (0, 0)).2)
      = gutterOf Q lr xx ∧
    hOffset Q lr xx 0 - (lr.getD 0 (0, 0)).1 = gutterOf Q lr xx ∧
    Q - (hOffset Q lr xx (xx - 1) + (lr.getD (xx - 1) (0, 0)).2)
      = gutterOf Q lr xx ∧
    cmdEval P (extSum tb) (yy - y) (yy + 1) (hbelowOf tb y)
      = vOffset P tb yy y ∧
    cmdEval Q (extSum lr) (x + 1) (xx + 1) (wleftOf lr x)
      = hOffset Q lr xx x := by
  subst hyy
  subst hxx
  have hyne : ((tb.length : ℚ) + 1) ≠ 0 := by positivity
  have hxne : ((lr.length : ℚ) + 1) ≠ 0 := by positivity
  refine ⟨?_, ?_, ?_, ?_, ?_, ?_, ?_, ?_, ?_⟩
  · rw [gutterOf]
    field_simp
  · simp only [vOffset, hbelowOf, gutterOf]
    rw [extSum_drop_succ tb (y + 1) (by omega)]
    push_cast
    field_simp
    ring
  · have h0 := extSum_drop_succ tb 0 (by omega)
    rw [List.drop_zero] at h0
    simp only [vOffset, hbelowOf, gutterOf]
    rw [h0]
    push_cast
    field_simp
    ring
  · simp only [vOffset, hbelowOf, gutterOf]
    rw [show tb.length - 1 + 1 = tb.length from by omega, List.drop_length,
      extSum_nil]
    push_cast [Nat.cast_sub (show 1 ≤ tb.length from by omega)]
    field_simp
    ring
  · simp only [hOffset, wleftOf, gutterOf]
    rw [extSum_take_succ lr x (by omega)]
    push_cast
    field_simp
    ring
  · simp only [hOffset, wleftOf, gutterOf]
    rw [List.take_zero, extSum_nil]
    push_cast
    field_simp
    ring
  · have h7 := extSum_take_succ lr (lr.length - 1) (by omega)
    rw [show lr.length - 1 + 1 = lr.length from by omega, List.take_length] at h7
    simp only [hOffset, wleftOf, gutterOf]
    rw [h7]
    push_cast [Nat.cast_sub (show 1 ≤ lr.length from by omega)]
    field_simp
    ring
  · rw [cmdEval, vOffset]
    push_cast [Nat.cast_sub (show y ≤ tb.length from by omega)]
    ring
  · rw [cmdEval, hOffset]
    push_cast
    ring

/-- C1 witness: the layout law at a concrete page with three row envelopes
and two column envelopes. -/
theorem c1_gutter_layout_witness :
    gutterOf 100 [((1 : ℚ), 2), (3, 4), (0, 0)] 3 * ((3 : ℚ) + 1)
        + extSum [((1 : ℚ), 2), (3, 4), (0, 0)] = 100 ∧
    (vOffset 100 [((1 : ℚ), 2), (3, 4), (0, 0)] 3 0
        - ([((1 : ℚ), 2), (3, 4), (0, 0)].getD 0 (0, 0)).2)
      - (vOffset 100 [((1 : ℚ), 2), (3, 4), (0, 0)] 3 1
        + ([((1 : ℚ), 2), (3, 4), (0, 0)].getD 1 (0, 0)).1)
      = gutterOf 100 [((1 : ℚ), 2), (3, 4), (0, 0)] 3 ∧
    100 - (vOffset 100 [((1 : ℚ), 2), (3, 4), (0, 0)] 3 0
        + ([((1 : ℚ), 2), (3, 4), (0, 0)].getD 0 (0, 0)).1)
      = gutterOf 100 [((1 : ℚ), 2), (3, 4), (0, 0)] 3 ∧
    vOffset 100 [((1 : ℚ), 2), (3, 4), (0, 0)] 3 (3 - 1)
        - ([((1 : ℚ), 2), (3, 4), (0, 0)].getD (3 - 1) (0, 0)).2
      = gutterOf 100 [((1 : ℚ), 2), (3, 4), (0, 0)] 3 ∧
    (hOffset 90 [((1 : ℚ), 1), (2, 2)] 2 1
        - ([((1 : ℚ), 1), (2, 2)].getD 1 (0, 0)).1)
      - (hOffset 90 [((1 : ℚ), 1), (2, 2)] 2 0
        + ([((1 : ℚ), 1), (2, 2)].getD 0 (0, 0)).2)
      = gutterOf 90 [((1 : ℚ), 1), (2, 2)] 2 ∧
    hOffset 90 [((1 : ℚ), 1), (2, 2)] 2 0
        - ([((1 : ℚ), 1), (2, 2)].getD 0 (0, 0)).1
      = gutterOf 90 [((1 : ℚ), 1), (2, 2)] 2 ∧
    90 - (hOffset 90 [((1 : ℚ), 1), (2, 2)] 2 (2 - 1)
        + ([((1 : ℚ), 1), (2, 2)].getD (2 - 1) (0, 0)).2)
      = gutterOf 90 [((1 : ℚ), 1), (2, 2)] 2 ∧
    cmdEval 100 (extSum [((1 : ℚ), 2), (3, 4), (0, 0)]) (3 - 0) (3 + 1)
        (hbelowOf [((1 : ℚ), 2), (3, 4), (0, 0)] 0)
      = vOffset 100 [((1 : ℚ), 2), (3, 4), (0, 0)] 3 0 ∧
    cmdEval 90 (extSum [((1 : ℚ), 1), (2, 2)]) (0 + 1) (2 + 1)
        (wleftOf [((1 : ℚ), 1), (2, 2)] 0)
      = hOffset 90 [((1 : ℚ), 1), (2, 2)] 2 0 :=
  c1_gutter_layout 100 90 [((1 : ℚ), 2), (3, 4), (0, 0)] [((1 : ℚ), 1), (2, 2)]
    3 2 0 0 rfl rfl (by decide) (by decide)

/-- C1 counterexample: one rect puzzle `1x1:1` on a 1-column, 2-row page.
The row envelopes are `[(7,7), (0,0)]`, so the envelope sum is `E = 14`;
with clip height `P = 32` the emitted layout uses the gutter
`g = (32-14)/(2+1) = 6` computed from the page-shape row count, and with
`N = 1` occupied row `g*(N+1) + E = 26 ≠ 32`; moreover the occupied row's
envelope bottom sits `2g`, not `g`, from the bottom page edge. -/
theorem c1_gutter_counterexample :
    rectDecode ("1x1:1".toList) = some (1, 1, [1]) ∧
    tbboundOf [(rectCoords 1 1, rectFragment 1 1 [1])] 1 2 0 = [(7, 7), (0, 0)] ∧
    extSum [((7 : ℚ), 7), (0, 0)] = 14 ∧
    gutterOf 32 [((7 : ℚ), 7), (0, 0)] 2 = 6 ∧
    gutterOf 32 [((7 : ℚ), 7), (0, 0)] 2 * ((1 : ℚ) + 1)
      + extSum [((7 : ℚ), 7), (0, 0)] ≠ 32 ∧
    vOffset 32 [((7 : ℚ), 7), (0, 0)] 2 0 - 7
      = 2 * gutterOf 32 [((7 : ℚ), 7), (0, 0)] 2 := by
  refine ⟨?_, ?_, ?_, ?_, ?_, ?_⟩
  · simp [rectDecode, splitOnChar, pairAtoi, pyAtoi, runLengthSeedGrid,
      isLowerC, isDigitC, isPySpaceC, digitsVal]
  · norm_num [tbboundOf, cellResult, rectCoords, List.range_succ]
  · norm_num [extSum]
  · norm_num [gutterOf, extSum]
  · norm_num [gutterOf, extSum]
  · norm_num [vOffset, hbelowOf, extSum, gutterOf]

-- ============ document pipeline lemmas ============

theorem pagesFor_zero (ppp : ℕ) (h : 0 < ppp) : pagesFor 0 ppp = 0 := by
  rw [pagesFor]
  exact Nat.div_eq_of_lt (by omega)

theorem pagesFor_eq_zero_iff (k ppp : ℕ) (h : 0 < ppp) :
    pagesFor k ppp = 0 ↔ k = 0 := by
  rw [pagesFor, Nat.div_eq_zero_iff h]
  omega

theorem pagesFor_succ_sub (k ppp n : ℕ) (h : 0 < ppp)
    (hn : pagesFor k ppp = n + 1) : pagesFor (k - ppp) ppp = n := by
  have hk : 1 ≤ k := by
    by_contra hk0
    have hz : k = 0 := by omega
    rw [hz, pagesFor_zero ppp h] at hn
    omega
  rw [pagesFor, show k + ppp - 1 = (k - 1) + ppp from by omega,
    Nat.add_div_right _ h] at hn
  have hq : (k - 1) / ppp = n := by omega
  by_cases hle : k ≤ ppp
  · have hz : k - ppp = 0 := by omega
    rw [hz, pagesFor_zero ppp h]
    rw [Nat.div_eq_of_lt (by omega : k - 1 < ppp)] at hq
    omega
  · push_neg at hle
    rw [pagesFor, show k - ppp + ppp - 1 = (k - ppp - 1) + ppp from by omega,
      Nat.add_div_right _ h]
    rw [show k - 1 = (k - ppp - 1) + ppp from by omega,
      Nat.add_div_right _ h] at hq
    omega

theorem chunks_eq (ppp : ℕ) (h : 0 < ppp) :
    ∀ (n : ℕ) (ids : List (List Char)), pagesFor ids.length ppp = n →
      (List.range n).flatMap (fun p => (ids.drop (p * ppp)).take ppp) = ids := by
  intro n
  induction n with
  | zero =>
    intro ids hn
    have h0 : ids.length = 0 := (pagesFor_eq_zero_iff _ _ h).mp hn
    rw [List.length_eq_zero.mp h0]
    rfl
  | succ n ih =>
    intro ids hn
    rw [List.range_succ_eq_map, List.flatMap_cons, List.flatMap_map]
    have h1 : ∀ p : ℕ, (ids.drop (Nat.succ p * ppp)).take ppp
        = ((ids.drop ppp).drop (p * ppp)).take ppp := by
      intro p
      rw [List.drop_drop]
      congr 2
      simp only [Nat.succ_eq_add_one]
      ring
    simp only [h1]
    rw [ih (ids.drop ppp)
      (by rw [List.length_drop]; exact pagesFor_succ_sub ids.length ppp n h hn)]
    simp [List.take_append_drop]

theorem rowMajor_filterMap {α : Type} (f : ℕ → Option α) (xx yy : ℕ) :
    (List.range yy).flatMap
        (fun y => (List.range xx).filterMap fun x => f (y * xx + x))
      = (List.range (yy * xx)).filterMap f := by
  induction yy with
  | zero => simp
  | succ yy ih =>
    rw [List.range_succ, List.flatMap_append, ih, List.flatMap_singleton,
      show (yy + 1) * xx = yy * xx + xx from by ring, List.range_add,
      List.filterMap_append, List.filterMap_map]
    rfl

theorem filterMap_getElem_range {α : Type} (l : List α) (b n : ℕ) :
    (List.range n).filterMap (fun j => l[b + j]?) = (l.drop b).take n := by
  induction n with
  | zero => simp
  | succ n ih =>
    rw [List.range_succ, List.filterMap_append, ih, List.take_succ,
      List.getElem?_drop]
    congr 1

theorem pageCellCalls_eq (ids : List (List Char)) (xx yy : ℕ)
    (hx : 0 < xx) (hy : 0 < yy) : pageCellCalls ids xx yy = ids := by
  rw [pageCellCalls]
  have hinner : ∀ p : ℕ, (List.range yy).flatMap
      (fun y => (List.range xx).filterMap fun x =>
        ids[p * (xx * yy) + y * xx + x]?)
      = (ids.drop (p * (xx * yy))).take (xx * yy) := by
    intro p
    have hrm := rowMajor_filterMap (fun j => ids[p * (xx * yy) + j]?) xx yy
    simp only [← Nat.add_assoc] at hrm
    rw [hrm, filterMap_getElem_range, Nat.mul_comm yy xx]
  simp only [hinner]
  exact chunks_eq (xx * yy) (Nat.mul_pos hx hy) _ ids rfl

theorem optMapM_eq_none {α β : Type} (f : α → Option β) (l : List α) (a : α)
    (ha : a ∈ l) (hf : f a = none) : optMapM f l = none := by
  induction l with
  | nil => cases ha
  | cons hd tl ih =>
    rw [optMapM]
    rcases List.mem_cons.mp ha with rfl | hmem
    · rw [hf]
      rfl
    · rcases hhd : f hd with _ | b
      · rfl
      · rw [ih hmem]
        rfl

theorem pagesFor_eq_ceil (k ppp : ℕ) (h : 0 < ppp) :
    pagesFor k ppp = ⌈(k : ℚ) / (ppp : ℚ)⌉₊ := by
  have hp : (0 : ℚ) < (ppp : ℚ) := by exact_mod_cast h
  rcases Nat.eq_zero_or_pos k with rfl | hk
  · rw [pagesFor_zero ppp h]
    simp
  · have hp1 : pagesFor k ppp = (k - 1) / ppp + 1 := by
      rw [pagesFor, show k + ppp - 1 = (k - 1) + ppp from by omega,
        Nat.add_div_right _ h]
    have hlt := Nat.lt_div_mul_add (a := k - 1) h
    have hle := Nat.div_mul_le_self (k - 1) ppp
    have hn0 : (k - 1) / ppp + 1 ≠ 0 := Nat.succ_ne_zero _
    rw [hp1, eq_comm, Nat.ceil_eq_iff hn0]
    constructor
    · rw [Nat.add_sub_cancel, lt_div_iff₀ hp]
      have hq : (k - 1) / ppp * ppp < k := by omega
      exact_mod_cast hq
    · rw [div_le_iff₀ hp]
      have hq2 : k ≤ ((k - 1) / ppp + 1) * ppp := by
        rw [Nat.add_mul, Nat.one_mul]
        omega
      exact_mod_cast hq2

theorem countP_preamble (n : ℕ) :
    (preambleItems n).countP isPageMarkB = 0 := rfl

theorem cellEmission_no_pageMark (results : List (Coords × List Prim))
    (lr tb : List (ℚ × ℚ)) (xx yy p y x : ℕ) :
    ∀ it ∈ cellEmission results lr tb xx yy p y x, isPageMarkB it = false := by
  intro it hit
  rw [cellEmission] at hit
  rcases hcr : cellResult results xx yy p y x with _ | ⟨cds, frag⟩
  · rw [hcr] at hit
    cases hit
  · rw [hcr] at hit
    dsimp only at hit
    split at hit
    · cases hit
    · rcases List.mem_append.mp hit with hm | hm
      · rcases List.mem_append.mp hm with hm | hm
        · simp only [List.mem_cons, List.not_mem_nil, or_false] at hm
          rcases hm with rfl | rfl | rfl | rfl | rfl | rfl <;> rfl
        · rcases List.mem_map.mp hm with ⟨q, _, hq⟩
          rw [← hq]
          rfl
      · simp only [List.mem_cons, List.not_mem_nil, or_false] at hm
        rw [hm]
        rfl

theorem countP_flatMap_eq_zero {α β : Type} (pb : β → Bool) (l : List α)
    (f : α → List β) (h : ∀ a ∈ l, ∀ b ∈ f a, pb b = false) :
    (l.flatMap f).countP pb = 0 := by
  rw [List.countP_eq_zero]
  intro b hb
  rcases List.mem_flatMap.mp hb with ⟨a, ha, hba⟩
  simp [h a ha b hba]

theorem countP_pageItems (results : List (Coords × List Prim)) (xx yy p : ℕ) :
    (pageItems results xx yy p).countP isPageMarkB = 1 := by
  rw [pageItems, List.countP_append, List.countP_append]
  rw [countP_flatMap_eq_zero isPageMarkB _ _
    (fun y _ => by
      exact fun b hb => by
        rcases List.mem_flatMap.mp hb with ⟨x, _, hbx⟩
        exact cellEmission_no_pageMark results _ _ xx yy p y x b hbx)]
  rfl

theorem countP_docItems (results : List (Coords × List Prim))
    (xx yy pages : ℕ) :
    (docItems results xx yy pages).countP isPageMarkB = pages := by
  rw [docItems, List.countP_append, List.countP_append, countP_preamble]
  have hpp : ((List.range pages).flatMap fun p =>
      pageItems results xx yy p).countP isPageMarkB = pages := by
    induction pages with
    | zero => rfl
    | succ n ih =>
      rw [List.range_succ, List.flatMap_append, List.countP_append, ih,
        List.flatMap_singleton, countP_pageItems]
  rw [hpp]
  simp [List.countP_cons, isPageMarkB]

-- ============ C3 ============

/-- C3: for `k` descriptors and a `xx` by `yy` page shape the program emits
exactly `ceil(k / (xx*yy))` page sections, declares that count in the
`%%Pages:` preamble line, and an unfilled page cell (one whose linear index
falls past the end of the input) emits no output items at all. -/
theorem c3_pagination (fmt : List Char → Option (Coords × List Prim))
    (inputLines : List (List Char)) (xx yy : ℕ) (out : List OutItem)
    (results : List (Coords × List Prim)) (lr tb : List (ℚ × ℚ)) (p y x : ℕ)
    (hx : 0 < xx) (hy : 0 < yy)
    (hrun : documentRun fmt inputLines xx yy = some out)
    (hcell : results.length ≤ p * (xx * yy) + y * xx + x) :
    pagesFor (inputLines.map stripNL).length (xx * yy)
      = ⌈((inputLines.map stripNL).length : ℚ) / ((xx * yy : ℕ) : ℚ)⌉₊ ∧
    OutItem.pagesDecl (pagesFor (inputLines.map stripNL).length (xx * yy)) ∈ out ∧
    out.countP isPageMarkB
      = pagesFor (inputLines.map stripNL).length (xx * yy) ∧
    cellEmission results lr tb xx yy p y x = [] := by
  have hppp : 0 < xx * yy := Nat.mul_pos hx hy
  obtain ⟨res, hres, hout⟩ := Option.map_eq_some'.mp hrun
  refine ⟨pagesFor_eq_ceil _ _ hppp, ?_, ?_, ?_⟩
  · rw [← hout, docItems]
    apply List.mem_append_left
    apply List.mem_append_left
    simp [preambleItems]
  · rw [← hout, countP_docItems]
  · rw [cellEmission, cellResult, List.getElem?_eq_none hcell]

/-- C3 witness: three descriptors on a 2-column, 1-row page shape give two
pages, via the stub formatter. -/
theorem c3_pagination_witness :
    pagesFor ((([[], [], []] : List (List Char)).map stripNL)).length (2 * 1)
      = ⌈(((([[], [], []] : List (List Char)).map stripNL)).length : ℚ)
          / ((2 * 1 : ℕ) : ℚ)⌉₊ ∧
    OutItem.pagesDecl
        (pagesFor ((([[], [], []] : List (List Char)).map stripNL)).length (2 * 1))
      ∈ (documentRun stubFormatter [[], [], []] 2 1).getD [] ∧
    ((documentRun stubFormatter [[], [], []] 2 1).getD []).countP isPageMarkB
      = pagesFor ((([[], [], []] : List (List Char)).map stripNL)).length (2 * 1) ∧
    cellEmission [] [] [] 2 1 0 0 0 = [] :=
  c3_pagination stubFormatter [[], [], []] 2 1
    ((documentRun stubFormatter [[], [], []] 2 1).getD [])
    [] [] [] 0 0 0 (by decide) (by decide) rfl (by decide)

-- ============ C9 ============

/-- C9: with zero input descriptors the program still writes a well-formed
document: the full preamble declaring a page count of 0, the Helvetica font
resource and the `ctshow` helper, zero page sections, the `%%EOF` trailer,
and it exits with status 0. -/
theorem c9_empty_input (fmt : List Char → Option (Coords × List Prim))
    (xx yy : ℕ) (hx : 0 < xx) (hy : 0 < yy) :
    documentRun fmt [] xx yy = some (preambleItems 0 ++ [OutItem.raw "%%EOF"]) ∧
    OutItem.pagesDecl 0 ∈ preambleItems 0 ∧
    OutItem.raw "%%+ font Helvetica" ∈ preambleItems 0 ∧
    OutItem.raw "%%IncludeResource: font Helvetica" ∈ preambleItems 0 ∧
    OutItem.raw "/ctshow \x7b" ∈ preambleItems 0 ∧
    OutItem.raw "\x7d bind def" ∈ preambleItems 0 ∧
    (preambleItems 0 ++ [OutItem.raw "%%EOF"]).countP isPageMarkB = 0 ∧
    runExitCode (documentRun fmt [] xx yy) = 0 := by
  have hppp : 0 < xx * yy := Nat.mul_pos hx hy
  have hrun : documentRun fmt [] xx yy
      = some (preambleItems 0 ++ [OutItem.raw "%%EOF"]) := by
    rw [documentRun]
    simp only [List.map_nil, List.length_nil, pagesFor_zero _ hppp]
    rw [pageCellCalls]
    simp only [List.length_nil, pagesFor_zero _ hppp, List.range_zero,
      List.flatMap_nil]
    rw [optMapM]
    simp [docItems]
  refine ⟨hrun, by decide, by decide, by decide, by decide, by decide,
    by decide, ?_⟩
  rw [hrun]
  rfl

/-- C9 witness: the zero-descriptor document law at the stub formatter and a
2x3 page shape. -/
theorem c9_empty_input_witness :
    documentRun stubFormatter [] 2 3
      = some (preambleItems 0 ++ [OutItem.raw "%%EOF"]) ∧
    OutItem.pagesDecl 0 ∈ preambleItems 0 ∧
    OutItem.raw "%%+ font Helvetica" ∈ preambleItems 0 ∧
    OutItem.raw "%%IncludeResource: font Helvetica" ∈ preambleItems 0 ∧
    OutItem.raw "/ctshow \x7b" ∈ preambleItems 0 ∧
    OutItem.raw "\x7d bind def" ∈ preambleItems 0 ∧
    (preambleItems 0 ++ [OutItem.raw "%%EOF"]).countP isPageMarkB = 0 ∧
    runExitCode (documentRun stubFormatter [] 2 3) = 0 :=
  c9_empty_input stubFormatter 2 3 (by decide) (by decide)

-- ============ C10 ============

/-- C10: every input line, empty lines included, is passed to the selected
formatter after stripping at most one trailing newline (the planned
formatter-call sequence is exactly the stripped input lines, in order); a
line that is empty after stripping, or any line without a `:`, fails its
parameter/seed split, and such a line aborts the whole batch with exit
status 1. -/
theorem c10_line_handling (inputLines : List (List Char)) (xx yy : ℕ)
    (s s2 t : List Char) (hx : 0 < xx) (hy : 0 < yy)
    (hs2 : s2.getLast? ≠ some '\n') (ht : ':' ∉ t) :
    pageCellCalls (inputLines.map stripNL) xx yy = inputLines.map stripNL ∧
    stripNL (s ++ ['\n']) = s ∧
    stripNL s2 = s2 ∧
    rectDecode t = none ∧
    rectDecode ([] : List Char) = none ∧
    documentRun rectFormatter (inputLines ++ [['\n']]) xx yy = none ∧
    runExitCode (documentRun rectFormatter (inputLines ++ [['\n']]) xx yy)
      = 1 := by
  have hnone : documentRun rectFormatter (inputLines ++ [['\n']]) xx yy
      = none := by
    rw [documentRun]
    rw [optMapM_eq_none rectFormatter _ ([] : List Char) ?_ ?_]
    · rfl
    · rw [pageCellCalls_eq _ xx yy hx hy, List.map_append]
      apply List.mem_append_right
      simp [stripNL]
    · rfl
  refine ⟨pageCellCalls_eq _ xx yy hx hy, ?_, ?_, ?_, by decide, hnone, ?_⟩
  · rw [stripNL, if_pos (List.getLast?_concat s), List.dropLast_concat]
  · rw [stripNL, if_neg hs2]
  · rw [rectDecode, splitOnChar_not_mem ':' t ht]
  · rw [hnone]
    rfl

/-- C10 witness: the line-handling law at a concrete one-descriptor input
with an appended bare-newline (empty) line, on a 1x1 page shape. -/
theorem c10_line_handling_witness :
    pageCellCalls ([['1', 'x', '1', ':', '1']].map stripNL) 1 1
      = [['1', 'x', '1', ':', '1']].map stripNL ∧
    stripNL (['a'] ++ ['\n']) = ['a'] ∧
    stripNL ['b'] = ['b'] ∧
    rectDecode ['a', 'b'] = none ∧
    rectDecode ([] : List Char) = none ∧
    documentRun rectFormatter ([['1', 'x', '1', ':', '1']] ++ [['\n']]) 1 1
      = none ∧
    runExitCode
        (documentRun rectFormatter ([['1', 'x', '1', ':', '1']] ++ [['\n']]) 1 1)
      = 1 :=
  c10_line_handling [['1', 'x', '1', ':', '1']] 1 1 ['a'] ['b'] ['a', 'b']
    (by decide) (by decide) (by decide) (by decide)
